import Mathlib

/-
Verification development for the json_sync engine (src/json_sync.py):
a schema-discovery-and-sync layer mapping JSON documents onto a
web2py-DAL relational schema.

The Python source is shallowly embedded below:
  * Python values occurring in documents and rows are the inductive `JVal`
    (py2 `int` and `long` are merged into `JVal.int`; `tuple` values cannot
    occur in JSON input, so sequence values are `JVal.list`, while the
    source's `tuple` type object is still represented in `PyType`).
  * The DAL database is an explicit `DB` state holding the
    `json_type_registry` catalog, the tables, and a chronological log of
    the storage operations performed (update_record / insert / bulk_insert /
    define_table-with-redefine / catalog bulk_insert).
  * Exceptions (KeyError, ValueError, TypeError, AttributeError, ...) are
    an error result `SyncErr`; every engine function returns its result
    together with the database state reached so far, because in the source
    storage writes performed before an exception stay committed.
  * `dateutil.parser.parse` / `datetime.strptime` and the local timezone
    are out-of-scope collaborators; they are passed in as an `Env` record.
  * Recursion through `reference` fields is data-driven in the source
    (bounded by document nesting); the embedding uses an explicit fuel
    parameter that is only consumed when descending into a nested
    reference document.
-/

/-- Python exceptions the engine can raise, by kind. -/
inductive SyncErr where
  | keyError (k : String)
  | typeError (s : String)
  | valueError (s : String)
  | attrError (s : String)
  | parseError (s : String)
  | fieldNotInTable (s : String)
  | outOfFuel
deriving DecidableEq, Repr

/-- Naive/aware `datetime.datetime`: wall-clock minutes since an epoch plus
an optional UTC offset in minutes (`tzinfo`). -/
structure PyDateTime where
  wall : Int
  tz : Option Int
deriving DecidableEq, Repr

/-- `dt.astimezone(tzlocal())` for an aware datetime: shift the wall clock to
the local offset.  (For a naive datetime py2 raises; the source only calls
this under an `if value.tzinfo:` guard, so that branch is the identity
here.) -/
def pyAstimezone (localOffset : Int) (d : PyDateTime) : PyDateTime :=
  match d.tz with
  | some off => { wall := d.wall - off + localOffset, tz := some localOffset }
  | none => d

/-- Python values: JSON scalars/containers plus the temporal objects produced
by date parsing.  py2 `int`/`long` are one constructor. -/
inductive JVal where
  | null
  | bool (b : Bool)
  | int (n : Int)
  | float (q : Rat)
  | str (s : String)
  | list (xs : List JVal)
  | obj (fs : List (String × JVal))
  | pydatetime (d : PyDateTime)
  | pydate (d : Int)
  | pytime (t : Int)
deriving Repr

mutual

/-- Structural decidable equality for `JVal`. -/
def JVal.decEq : (a b : JVal) → Decidable (a = b)
  | .null, .null => isTrue rfl
  | .bool x, .bool y =>
      if h : x = y then isTrue (by rw [h])
      else isFalse (fun e => by cases e; exact h rfl)
  | .int x, .int y =>
      if h : x = y then isTrue (by rw [h])
      else isFalse (fun e => by cases e; exact h rfl)
  | .float x, .float y =>
      if h : x = y then isTrue (by rw [h])
      else isFalse (fun e => by cases e; exact h rfl)
  | .str x, .str y =>
      if h : x = y then isTrue (by rw [h])
      else isFalse (fun e => by cases e; exact h rfl)
  | .list xs, .list ys =>
      match JVal.decEqList xs ys with
      | isTrue h => isTrue (by rw [h])
      | isFalse h => isFalse (fun e => by cases e; exact h rfl)
  | .obj fs, .obj gs =>
      match JVal.decEqObj fs gs with
      | isTrue h => isTrue (by rw [h])
      | isFalse h => isFalse (fun e => by cases e; exact h rfl)
  | .pydatetime x, .pydatetime y =>
      if h : x = y then isTrue (by rw [h])
      else isFalse (fun e => by cases e; exact h rfl)
  | .pydate x, .pydate y =>
      if h : x = y then isTrue (by rw [h])
      else isFalse (fun e => by cases e; exact h rfl)
  | .pytime x, .pytime y =>
      if h : x = y then isTrue (by rw [h])
      else isFalse (fun e => by cases e; exact h rfl)
  | .null, .bool _ => isFalse (fun h => JVal.noConfusion h)
  | .null, .int _ => isFalse (fun h => JVal.noConfusion h)
  | .null, .float _ => isFalse (fun h => JVal.noConfusion h)
  | .null, .str _ => isFalse (fun h => JVal.noConfusion h)
  | .null, .list _ => isFalse (fun h => JVal.noConfusion h)
  | .null, .obj _ => isFalse (fun h => JVal.noConfusion h)
  | .null, .pydatetime _ => isFalse (fun h => JVal.noConfusion h)
  | .null, .pydate _ => isFalse (fun h => JVal.noConfusion h)
  | .null, .pytime _ => isFalse (fun h => JVal.noConfusion h)
  | .bool _, .null => isFalse (fun h => JVal.noConfusion h)
  | .bool _, .int _ => isFalse (fun h => JVal.noConfusion h)
  | .bool _, .float _ => isFalse (fun h => JVal.noConfusion h)
  | .bool _, .str _ => isFalse (fun h => JVal.noConfusion h)
  | .bool _, .list _ => isFalse (fun h => JVal.noConfusion h)
  | .bool _, .obj _ => isFalse (fun h => JVal.noConfusion h)
  | .bool _, .pydatetime _ => isFalse (fun h => JVal.noConfusion h)
  | .bool _, .pydate _ => isFalse (fun h => JVal.noConfusion h)
  | .bool _, .pytime _ => isFalse (fun h => JVal.noConfusion h)
  | .int _, .null => isFalse (fun h => JVal.noConfusion h)
  | .int _, .bool _ => isFalse (fun h => JVal.noConfusion h)
  | .int _, .float _ => isFalse (fun h => JVal.noConfusion h)
  | .int _, .str _ => isFalse (fun h => JVal.noConfusion h)
  | .int _, .list _ => isFalse (fun h => JVal.noConfusion h)
  | .int _, .obj _ => isFalse (fun h => JVal.noConfusion h)
  | .int _, .pydatetime _ => isFalse (fun h => JVal.noConfusion h)
  | .int _, .pydate _ => isFalse (fun h => JVal.noConfusion h)
  | .int _, .pytime _ => isFalse (fun h => JVal.noConfusion h)
  | .float _, .null => isFalse (fun h => JVal.noConfusion h)
  | .float _, .bool _ => isFalse (fun h => JVal.noConfusion h)
  | .float _, .int _ => isFalse (fun h => JVal.noConfusion h)
  | .float _, .str _ => isFalse (fun h => JVal.noConfusion h)
  | .float _, .list _ => isFalse (fun h => JVal.noConfusion h)
  | .float _, .obj _ => isFalse (fun h => JVal.noConfusion h)
  | .float _, .pydatetime _ => isFalse (fun h => JVal.noConfusion h)
  | .float _, .pydate _ => isFalse (fun h => JVal.noConfusion h)
  | .float _, .pytime _ => isFalse (fun h => JVal.noConfusion h)
  | .str _, .null => isFalse (fun h => JVal.noConfusion h)
  | .str _, .bool _ => isFalse (fun h => JVal.noConfusion h)
  | .str _, .int _ => isFalse (fun h => JVal.noConfusion h)
  | .str _, .float _ => isFalse (fun h => JVal.noConfusion h)
  | .str _, .list _ => isFalse (fun h => JVal.noConfusion h)
  | .str _, .obj _ => isFalse (fun h => JVal.noConfusion h)
  | .str _, .pydatetime _ => isFalse (fun h => JVal.noConfusion h)
  | .str _, .pydate _ => isFalse (fun h => JVal.noConfusion h)
  | .str _, .pytime _ => isFalse (fun h => JVal.noConfusion h)
  | .list _, .null => isFalse (fun h => JVal.noConfusion h)
  | .list _, .bool _ => isFalse (fun h => JVal.noConfusion h)
  | .list _, .int _ => isFalse (fun h => JVal.noConfusion h)
  | .list _, .float _ => isFalse (fun h => JVal.noConfusion h)
  | .list _, .str _ => isFalse (fun h => JVal.noConfusion h)
  | .list _, .obj _ => isFalse (fun h => JVal.noConfusion h)
  | .list _, .pydatetime _ => isFalse (fun h => JVal.noConfusion h)
  | .list _, .pydate _ => isFalse (fun h => JVal.noConfusion h)
  | .list _, .pytime _ => isFalse (fun h => JVal.noConfusion h)
  | .obj _, .null => isFalse (fun h => JVal.noConfusion h)
  | .obj _, .bool _ => isFalse (fun h => JVal.noConfusion h)
  | .obj _, .int _ => isFalse (fun h => JVal.noConfusion h)
  | .obj _, .float _ => isFalse (fun h => JVal.noConfusion h)
  | .obj _, .str _ => isFalse (fun h => JVal.noConfusion h)
  | .obj _, .list _ => isFalse (fun h => JVal.noConfusion h)
  | .obj _, .pydatetime _ => isFalse (fun h => JVal.noConfusion h)
  | .obj _, .pydate _ => isFalse (fun h => JVal.noConfusion h)
  | .obj _, .pytime _ => isFalse (fun h => JVal.noConfusion h)
  | .pydatetime _, .null => isFalse (fun h => JVal.noConfusion h)
  | .pydatetime _, .bool _ => isFalse (fun h => JVal.noConfusion h)
  | .pydatetime _, .int _ => isFalse (fun h => JVal.noConfusion h)
  | .pydatetime _, .float _ => isFalse (fun h => JVal.noConfusion h)
  | .pydatetime _, .str _ => isFalse (fun h => JVal.noConfusion h)
  | .pydatetime _, .list _ => isFalse (fun h => JVal.noConfusion h)
  | .pydatetime _, .obj _ => isFalse (fun h => JVal.noConfusion h)
  | .pydatetime _, .pydate _ => isFalse (fun h => JVal.noConfusion h)
  | .pydatetime _, .pytime _ => isFalse (fun h => JVal.noConfusion h)
  | .pydate _, .null => isFalse (fun h => JVal.noConfusion h)
  | .pydate _, .bool _ => isFalse (fun h => JVal.noConfusion h)
  | .pydate _, .int _ => isFalse (fun h => JVal.noConfusion h)
  | .pydate _, .float _ => isFalse (fun h => JVal.noConfusion h)
  | .pydate _, .str _ => isFalse (fun h => JVal.noConfusion h)
  | .pydate _, .list _ => isFalse (fun h => JVal.noConfusion h)
  | .pydate _, .obj _ => isFalse (fun h => JVal.noConfusion h)
  | .pydate _, .pydatetime _ => isFalse (fun h => JVal.noConfusion h)
  | .pydate _, .pytime _ => isFalse (fun h => JVal.noConfusion h)
  | .pytime _, .null => isFalse (fun h => JVal.noConfusion h)
  | .pytime _, .bool _ => isFalse (fun h => JVal.noConfusion h)
  | .pytime _, .int _ => isFalse (fun h => JVal.noConfusion h)
  | .pytime _, .float _ => isFalse (fun h => JVal.noConfusion h)
  | .pytime _, .str _ => isFalse (fun h => JVal.noConfusion h)
  | .pytime _, .list _ => isFalse (fun h => JVal.noConfusion h)
  | .pytime _, .obj _ => isFalse (fun h => JVal.noConfusion h)
  | .pytime _, .pydatetime _ => isFalse (fun h => JVal.noConfusion h)
  | .pytime _, .pydate _ => isFalse (fun h => JVal.noConfusion h)

def JVal.decEqList : (xs ys : List JVal) → Decidable (xs = ys)
  | [], [] => isTrue rfl
  | [], _ :: _ => isFalse nofun
  | _ :: _, [] => isFalse nofun
  | x :: xs, y :: ys =>
      match JVal.decEq x y, JVal.decEqList xs ys with
      | isTrue h1, isTrue h2 => isTrue (by rw [h1, h2])
      | isFalse h1, _ => isFalse (fun e => by cases e; exact h1 rfl)
      | _, isFalse h2 => isFalse (fun e => by cases e; exact h2 rfl)

def JVal.decEqObj : (xs ys : List (String × JVal)) → Decidable (xs = ys)
  | [], [] => isTrue rfl
  | [], _ :: _ => isFalse nofun
  | _ :: _, [] => isFalse nofun
  | (k, v) :: xs, (l, w) :: ys =>
      if h1 : k = l then
        match JVal.decEq v w, JVal.decEqObj xs ys with
        | isTrue h2, isTrue h3 => isTrue (by rw [h1, h2, h3])
        | isFalse h2, _ => isFalse (fun e => by cases e; exact h2 rfl)
        | _, isFalse h3 => isFalse (fun e => by cases e; exact h3 rfl)
      else isFalse (fun e => by cases e; exact h1 rfl)

end

instance : DecidableEq JVal := JVal.decEq


/-- The Python type objects the engine compares against
(`type(value) in {...}` tests). -/
inductive PyType where
  | int | float | bool | str | dict | list | tup
  | noneType | datetimeT | dateT | timeT
deriving DecidableEq, Repr

/-- `type(value)` for an embedded value. -/
def pyTypeOf : JVal → PyType
  | .null => .noneType
  | .bool _ => .bool
  | .int _ => .int
  | .float _ => .float
  | .str _ => .str
  | .list _ => .list
  | .obj _ => .dict
  | .pydatetime _ => .datetimeT
  | .pydate _ => .dateT
  | .pytime _ => .timeT

/-- A JSON document body / an AttrDict: association list keyed by strings. -/
abbrev Doc := List (String × JVal)

/-- A row representation (AttrDict from column name to value). -/
abbrev Row := List (String × JVal)

/-- Dictionary read: first binding for the key. -/
def alookup {α : Type} : List (String × α) → String → Option α
  | [], _ => none
  | (k, v) :: rest, key => if k = key then some v else alookup rest key

/-- Dictionary write `d[key] = v`: replace in place or append. -/
def aset {α : Type} : List (String × α) → String → α → List (String × α)
  | [], key, v => [(key, v)]
  | (k, w) :: rest, key, v =>
      if k = key then (key, v) :: rest else (k, w) :: aset rest key v

/-- Membership test on a list of strings. -/
def memStr : List String → String → Bool
  | [], _ => false
  | c :: rest, key => if c = key then true else memStr rest key

/-- `long(x)` conversion (used on child ids). -/
def pyLong : JVal → Except SyncErr Int
  | .int n => .ok n
  | .bool b => .ok (if b then 1 else 0)
  | .float q => .ok (if 0 ≤ q then q.floor else -((-q).floor))
  | .str s =>
      match s.trim.toInt? with
      | some n => .ok n
      | none => .error (.valueError "invalid literal for long()")
  | _ => .error (.typeError "long() argument")

/-- `type(value) in {int, long}` — the source's test for an integer value. -/
def isIntVal : JVal → Bool
  | .int _ => true
  | _ => false

/-- One row of the persisted `json_type_registry` catalog table: a
dynamically discovered field of a type.  `add_fields_to_type` never fills
`column_name`, so it is optional. -/
structure RegEntry where
  type : String
  fieldname : String
  column_name : Option String
  db_type : String
deriving DecidableEq, Repr

/-- One storage operation, recorded chronologically (update_record /
insert / bulk_insert / define_table-with-redefine / catalog bulk_insert). -/
inductive DbOp where
  | updateRec (table : String) (id : JVal)
  | insertOne (table : String) (row : Row)
  | bulkIns (table : String) (rows : List Row)
  | redefine (table : String)
  | catalogIns (entries : List RegEntry)
deriving DecidableEq, Repr

/-- A storage table: its column names (always containing the DAL-implicit
`id`), its rows (each normalized to hold every column, absent ones null, as
a relational row does), and the next auto-generated id. -/
structure Table where
  fields : List String
  rows : List Row
  nextId : Int
deriving DecidableEq, Repr

/-- The storage engine state plus an operation log. -/
structure DB where
  catalog : List RegEntry
  tables : List (String × Table)
  log : List DbOp
deriving DecidableEq, Repr

def DB.getTable (db : DB) (name : String) : Option Table := alookup db.tables name

def DB.setTable (db : DB) (name : String) (t : Table) : DB :=
  { db with tables := aset db.tables name t }

def DB.pushLog (db : DB) (op : DbOp) : DB := { db with log := db.log ++ [op] }

/-- A row as stored: every column present, missing ones null. -/
def normRow (cols : List String) (r : Row) : Row :=
  cols.map (fun c => (c, (alookup r c).getD .null))

/-- `table(idv)`: look a row up by primary key (`None` finds nothing). -/
def findRow (t : Table) (idv : JVal) : Option Row :=
  if idv = .null then none
  else t.rows.find? (fun r => decide (alookup r "id" = some idv))

/-- The Traversal Context (`Context` in the source).  The source also
stores the type, the parent context object and the chain of parent
contexts; none of those are read by the engine, so only the data they give
access to (`parents`, `root`) is kept. -/
structure Context where
  data : Option Doc
  seq : Option (List JVal)
  isPartial : Bool
  index : Int
  parents : List (Option Doc)
  root : Option Doc

/-- A computed-field function; the source inspects the function's arity to
decide whether to pass the context. -/
inductive ComputeFn where
  | one (f : Row → JVal)
  | two (f : Row → Context → JVal)

/-- A Field Descriptor (`JSONField`): logical fieldname, storage type
string, target column, optional date parsing configuration, optional
compute function.  The DAL-forwarded `field_args`/`field_kwargs` play no
role in the sync engine and are omitted. -/
structure JSONField where
  fieldname : String
  type : String
  column_name : String
  date_format : Option String
  dateutil_kwargs : Option String
  compute : Option ComputeFn

/-- The `JSONField(fieldname, type)` constructor with all optional
behavior unset (`column_name` defaults to the fieldname); this is exactly
how `fields_by_name` materializes a catalog entry. -/
def JSONField.ofName (fieldname ftype : String) : JSONField :=
  { fieldname := fieldname, type := ftype, column_name := fieldname,
    date_format := none, dateutil_kwargs := none, compute := none }

/-- A Type Definition (`JSONType`): name, target table, the
`remove_missing_fields` policy and the declared ordered fields. -/
structure JSONType where
  name : String
  table_name : String
  remove_missing_fields : Bool
  fields : List JSONField

/-- `define_type(name, *fields)` with default options
(`remove_missing_fields=True`, `table_name=name`). -/
def defineType (name : String) (fields : List JSONField) : JSONType :=
  { name := name, table_name := name, remove_missing_fields := true, fields := fields }

/-- The Type Registry: the ordered list of defined types. -/
structure JSONRegistry where
  types : List JSONType

/-- `registry[name]` (attribute lookup): first type with that name. -/
def JSONRegistry.find (reg : JSONRegistry) (name : String) : Option JSONType :=
  reg.types.find? (fun ty => ty.name == name)

/-- One step of `fields_by_name`: add a catalog entry's synthetic field
unless the fieldname is already present. -/
def fbnStep (acc : List (String × JSONField)) (e : RegEntry) :
    List (String × JSONField) :=
  if (alookup acc e.fieldname).isSome then acc
  else acc ++ [(e.fieldname, JSONField.ofName e.fieldname e.db_type)]

/-- `JSONRegistry.fields_by_name`: the declared fields of the type,
extended with a synthetic `JSONField` for every catalog entry of this type
whose fieldname is not already present. -/
def fields_by_name (db : DB) (ty : JSONType) : List (String × JSONField) :=
  (db.catalog.filter (fun e => e.type == ty.name)).foldl fbnStep
    (ty.fields.map (fun f => (f.fieldname, f)))

/-- `JSONRegistry.redefine_table`: (re)define the type's table from
`fields_by_name` with additive migration — existing rows are preserved
(new columns null), and the DAL adds the implicit `id` column. -/
def redefine_table (db : DB) (ty : JSONType) : DB :=
  let cols := "id" :: (fields_by_name db ty).map (fun p => p.2.column_name)
  let t : Table :=
    match db.getTable ty.table_name with
    | some t => { fields := cols, rows := t.rows.map (normRow cols), nextId := t.nextId }
    | none => { fields := cols, rows := [], nextId := 1 }
  (db.setTable ty.table_name t).pushLog (.redefine ty.table_name)

/-- `JSONRegistry.add_fields_to_type`: no-op on an empty mapping;
otherwise bulk-insert one catalog row per new field and redefine the
table. -/
def add_fields_to_type (db : DB) (ty : JSONType) (newFields : List (String × String)) : DB :=
  match newFields with
  | [] => db
  | _ =>
    let entries : List RegEntry := newFields.map (fun p =>
      { type := ty.name, fieldname := p.1, column_name := none, db_type := p.2 })
    redefine_table
      { db with catalog := db.catalog ++ entries, log := db.log ++ [.catalogIns entries] } ty

/-- `JSONRegistry.redefine_tables` (= `define_tables`): initialize or
migrate every registered type's table. -/
def redefine_tables (reg : JSONRegistry) (db : DB) : DB :=
  reg.types.foldl (fun db ty => redefine_table db ty) db

/-- `missing_fields.setdefault(fieldname, set()).add(type(value))`:
record an observed Python type for a field (insertion-ordered set). -/
def addObservedKind (missing : List (String × List PyType)) (fieldname : String)
    (k : PyType) : List (String × List PyType) :=
  match alookup missing fieldname with
  | none => missing ++ [(fieldname, [k])]
  | some ks => if k ∈ ks then missing else aset missing fieldname (ks ++ [k])

/-- One step of `_find_extra_types`: skip keys already known, the `id`
key, and null values; otherwise record the observed Python type. -/
def fetStep (current_fields : List (String × JSONField))
    (acc : List (String × List PyType)) (p : String × JVal) :
    List (String × List PyType) :=
  if (alookup current_fields p.1).isSome then acc
  else if p.1 = "id" then acc
  else if p.2 = JVal.null then acc
  else addObservedKind acc p.1 (pyTypeOf p.2)

/-- `JSONType._find_extra_types`: scan a document's top-level keys,
accumulating the set of observed Python types per previously unseen
non-null non-id key. -/
def find_extra_types (current_fields : List (String × JSONField))
    (missing : List (String × List PyType)) (obj : Doc) : List (String × List PyType) :=
  obj.foldl (fetStep current_fields) missing

/-- The type-inference rule of `JSONType._redefine_with_missing_fields`:
exactly one observed Python type maps int→integer, dict/list/tuple→json,
bool→boolean, float→double; every other case (several observed types, or a
type with no mapping) defaults to string. -/
def inferDbType (types : List PyType) : String :=
  match types with
  | [t] =>
    match t with
    | .int => "integer"
    | .dict => "json"
    | .list => "json"
    | .tup => "json"
    | .bool => "boolean"
    | .float => "double"
    | _ => "string"
  | _ => "string"

/-- `JSONType._redefine_with_missing_fields`: infer a storage type for each
missing field and extend the schema through the registry. -/
def redefine_with_missing_fields (db : DB) (ty : JSONType)
    (missing : List (String × List PyType)) : DB :=
  add_fields_to_type db ty (missing.map (fun p => (p.1, inferDbType p.2)))

/-- The bulk variant of discovery: `for obj in context.seq:
self._find_extra_types(current_fields, missing_fields, obj)`; iterating a
non-mapping raises. -/
def find_extra_types_bulk (current_fields : List (String × JSONField))
    (missing : List (String × List PyType)) :
    List JVal → Except SyncErr (List (String × List PyType))
  | [] => .ok missing
  | v :: rest =>
    match v with
    | .obj fs =>
        find_extra_types_bulk current_fields (find_extra_types current_fields missing fs) rest
    | _ => .error (.typeError "document is not a mapping")

/-- Strip a prefix from a character list, returning the remainder. -/
def stripPrefixChars : List Char → List Char → Option (List Char)
  | [], rest => some rest
  | _ :: _, [] => none
  | p :: ps, c :: cs => if p = c then stripPrefixChars ps cs else none

/-- All characters are `\w` (alphanumeric or underscore). -/
def wordChars : List Char → Bool
  | [] => true
  | c :: cs => (c.isAlphanum || c = '_') && wordChars cs

/-- `re.match(r'^(reference|list:reference) (\w+)$', field.type)`:
`some (false, name)` for `reference name`, `some (true, name)` for
`list:reference name`. -/
def refMatch (s : String) : Option (Bool × String) :=
  match stripPrefixChars "reference ".toList s.toList with
  | some rest =>
    if !rest.isEmpty && wordChars rest then some (false, String.mk rest) else none
  | none =>
    match stripPrefixChars "list:reference ".toList s.toList with
    | some rest =>
      if !rest.isEmpty && wordChars rest then some (true, String.mk rest) else none
    | none => none

/-- Out-of-scope collaborators: the local timezone offset (minutes) and
the two date-string parsers (`datetime.strptime` with an explicit format,
`dateutil.parser.parse` with opaque keyword options). -/
structure Env where
  localOffset : Int
  strptime : String → String → Option PyDateTime
  parseDate : Option String → String → Option PyDateTime

/-- The temporal branch of `JSONType._create_row_dict` for a non-null
value of a `datetime`/`date`/`time` field: parse the string (failure is
logged and re-raised), then truncate per field type.  NOTE the source line
`value.astimezone(tzlocal())` computes a normalized datetime and discards
it (`astimezone` is pure and its result is not assigned), so the value
used below is the parsed one, unchanged. -/
def processTemporal (env : Env) (field : JSONField) (value : JVal) :
    Except SyncErr JVal :=
  if field.type = "datetime" ∨ field.type = "date" ∨ field.type = "time" then
    match value with
    | .str s =>
      let parsed :=
        match field.date_format with
        | some fmt => env.strptime fmt s
        | none => env.parseDate field.dateutil_kwargs s
      match parsed with
      | none => .error (.parseError s)
      | some dtv =>
        let _discardedNormalization :=
          if dtv.tz.isSome then pyAstimezone env.localOffset dtv else dtv
        if field.type = "date" then .ok (.pydate (dtv.wall.fdiv 1440))
        else if field.type = "time" then .ok (.pytime (dtv.wall.emod 1440))
        else .ok (.pydatetime dtv)
    | _ => .error (.typeError "date parsing needs a string")
  else .ok value

/-- `for i, child in enumerate(children): ids[indexes[i]] = long(child['id'])`. -/
def assignChildIds : List (Option JVal) → List Nat → List Row →
    Except SyncErr (List (Option JVal))
  | ids, _, [] => .ok ids
  | _, [], _ :: _ => .error (.keyError "list index out of range")
  | ids, i :: is, c :: cs =>
    match alookup c "id" with
    | none => .error (.keyError "id")
    | some v =>
      match pyLong v with
      | .error e => .error e
      | .ok n => assignChildIds (ids.set i (some (.int n))) is cs

/-- The update payload of `_update_row`: when `remove_missing_fields` is
set, a copy of the built row with every stored column absent from it
nulled; otherwise the built row itself. -/
def updPayload (ty : JSONType) (db_row row_dict : Row) : Row :=
  if ty.remove_missing_fields then
    ((db_row.map Prod.fst).filter (fun c => (alookup row_dict c).isNone)).foldl
      (fun r c => aset r c .null) row_dict
  else row_dict

/-- `update_record(**payload)`: set the listed columns, keep the rest. -/
def updApply (cols : List String) (r payload : Row) : Row :=
  cols.map (fun c => (c,
    match alookup payload c with
    | some v => v
    | none => (alookup r c).getD .null))

/-- `JSONType._update_row`: look the row up by `row_dict['id']` (KeyError
if the built row has no id).  If found and `remove_missing_fields` is set,
null every column of the stored row that the built row lacks — in a copy,
the caller's row is untouched — then `update_record`; returns whether a
row was updated. -/
def update_row (ty : JSONType) (db : DB) (row_dict : Row) :
    Except SyncErr Bool × DB :=
  match db.getTable ty.table_name with
  | none => (.error (.keyError ty.table_name), db)
  | some t =>
    match alookup row_dict "id" with
    | none => (.error (.keyError "id"), db)
    | some idv =>
      match findRow t idv with
      | none => (.ok false, db)
      | some db_row =>
        let payload := updPayload ty db_row row_dict
        if payload.all (fun p => memStr t.fields p.1) then
          let t' := { t with rows := t.rows.map (fun r =>
            if alookup r "id" = some idv then updApply t.fields r payload else r) }
          (.ok true, (db.setTable ty.table_name t').pushLog (.updateRec ty.table_name idv))
        else (.error (.fieldNotInTable ty.table_name), db)

/-- `table.insert(**row)`: reject unknown columns, auto-generate an id when
the row carries none (or a null one), store the row normalized. -/
def insertTableRow (t : Table) (row : Row) : Except SyncErr Table :=
  if row.all (fun p => memStr t.fields p.1) then
    let fresh := normRow t.fields (aset row "id" (.int t.nextId))
    match alookup row "id" with
    | some v =>
      if v = .null then
        .ok { t with rows := t.rows ++ [fresh], nextId := t.nextId + 1 }
      else .ok { t with rows := t.rows ++ [normRow t.fields row] }
    | none =>
      .ok { t with rows := t.rows ++ [fresh], nextId := t.nextId + 1 }
  else .error (.fieldNotInTable "insert")

/-- `db[self.table_name].insert(**row_dict)` (the generated id is
discarded by the source). -/
def insertRow (ty : JSONType) (db : DB) (row : Row) : Except SyncErr Unit × DB :=
  match db.getTable ty.table_name with
  | none => (.error (.keyError ty.table_name), db)
  | some t =>
    match insertTableRow t row with
    | .error e => (.error e, db)
    | .ok t' => (.ok (), (db.setTable ty.table_name t').pushLog (.insertOne ty.table_name row))

/-- `db[self.table_name].bulk_insert(rows)`: one storage call inserting
every queued row. -/
def bulk_insert_rows (ty : JSONType) (db : DB) (rows : List Row) :
    Except SyncErr Unit × DB :=
  match db.getTable ty.table_name with
  | none => (.error (.keyError ty.table_name), db)
  | some t =>
    match rows.foldlM insertTableRow t with
    | .error e => (.error e, db)
    | .ok t' => (.ok (), (db.setTable ty.table_name t').pushLog (.bulkIns ty.table_name rows))

/-- The passthrough step of `_create_row_dict`: copy an undeclared
document key into the row when its value is non-null or the table already
has that column. -/
def row0Step (declared : List (String × JSONField)) (tfields : List String)
    (r : Row) (q : String × JVal) : Row :=
  if (alookup declared q.1).isSome then r
  else if ¬ q.2 = JVal.null ∨ memStr tfields q.1 = true then aset r q.1 q.2
  else r

/-- The whole passthrough loop of `_create_row_dict`. -/
def row0Of (declared : List (String × JSONField)) (tfields : List String)
    (data : Doc) : Row :=
  data.foldl (row0Step declared tfields) []

section EngineG

/- The engine bodies, written over abstract child-sync functions
(`syncF`, `bulkF`); the recursive knot is tied below by structural
recursion on a fuel parameter that is consumed once per (bulk-)sync
entry. -/

variable (syncF : JSONType → DB → Context → Except SyncErr Row × DB)
variable (bulkF : JSONType → DB → Context → Except SyncErr (List Row) × DB)
variable (env : Env) (reg : JSONRegistry)

/-- One declared field's step of `JSONType._create_row_dict`: computed
fields first (never read from input); in partial mode an absent fieldname
is skipped entirely; an absent or null value stores null; temporal values
are parsed; `reference`/`list:reference` values are resolved by
(recursively) syncing the nested document(s). -/
def processFieldG (ty : JSONType) (db : DB) (ctx : Context) (row : Row)
    (field : JSONField) : Except SyncErr Row × DB :=
  match field.compute with
  | some cf =>
    let v := match cf with
      | .one f => f row
      | .two f => f row ctx
    (.ok (aset row field.column_name v), db)
  | none =>
    match ctx.data with
    | none => (.error (.typeError "context data is not set"), db)
    | some data =>
      if ctx.isPartial && (alookup data field.fieldname).isNone then (.ok row, db)
      else
        let value := (alookup data field.fieldname).getD .null
        if value = .null then (.ok (aset row field.column_name .null), db)
        else
          match processTemporal env field value with
          | .error e => (.error e, db)
          | .ok value1 =>
            match refMatch field.type with
            | none => (.ok (aset row field.column_name value1), db)
            | some (isListRef, refName) =>
              match reg.find refName with
              | none => (.error (.attrError refName), db)
              | some refType =>
                if isListRef = false then
                  if isIntVal value1 then (.ok (aset row field.column_name value1), db)
                  else
                    match value1 with
                    | .obj fs =>
                      let childCtx : Context :=
                        { data := some fs, seq := none, isPartial := ctx.isPartial,
                          index := -1, parents := ctx.data :: ctx.parents, root := ctx.root }
                      match syncF refType db childCtx with
                      | (.error e, db') => (.error e, db')
                      | (.ok childRow, db') =>
                        match alookup childRow "id" with
                        | none => (.error (.keyError "id"), db')
                        | some idv =>
                          match pyLong idv with
                          | .error e => (.error e, db')
                          | .ok n => (.ok (aset row field.column_name (.int n)), db')
                    | _ => (.error (.valueError "AttrDict of a non-mapping"), db)
                else
                  let items := match value1 with
                    | .list xs => xs
                    | other => [other]
                  let ids := items.map (fun it => if isIntVal it then some it else none)
                  let nonInt := items.enum.filter (fun p => !(isIntVal p.2))
                  if nonInt.isEmpty then
                    (.ok (aset row field.column_name (.list (ids.map (fun o => o.getD .null)))), db)
                  else
                    let childCtx : Context :=
                      { data := none, seq := some (nonInt.map Prod.snd),
                        isPartial := ctx.isPartial, index := -1,
                        parents := ctx.data :: ctx.parents, root := ctx.root }
                    match bulkF refType db childCtx with
                    | (.error e, db') => (.error e, db')
                    | (.ok children, db') =>
                      match assignChildIds ids (nonInt.map Prod.fst) children with
                      | .error e => (.error e, db')
                      | .ok idsDone =>
                        (.ok (aset row field.column_name
                          (.list (idsDone.map (fun o => o.getD .null)))), db')

/-- The `for field in self.fields:` loop of `_create_row_dict`. -/
def processFieldsG (ty : JSONType) (db : DB) (ctx : Context) (row : Row) :
    List JSONField → Except SyncErr Row × DB
  | [] => (.ok row, db)
  | f :: rest =>
    match processFieldG syncF bulkF env reg ty db ctx row f with
    | (.error e, db') => (.error e, db')
    | (.ok rowNext, db') => processFieldsG ty db' ctx rowNext rest

/-- `JSONType._create_row_dict`: passthrough of undeclared document keys
(kept when non-null, or when the table already has the column), then the
declared-fields loop. -/
def create_row_dictG (ty : JSONType) (db : DB) (ctx : Context) :
    Except SyncErr Row × DB :=
  match ctx.data with
  | none => (.error (.typeError "context data is not set"), db)
  | some data =>
    match db.getTable ty.table_name with
    | none => (.error (.keyError ty.table_name), db)
    | some t =>
      let row0 := row0Of (ty.fields.map (fun f => (f.fieldname, f))) t.fields data
      processFieldsG syncF bulkF env reg ty db ctx row0 ty.fields

/-- `JSONType._sync`: discover and apply missing fields from this one
document, build the row, update-else-insert, return the built row. -/
def syncG (ty : JSONType) (db : DB) (ctx : Context) : Except SyncErr Row × DB :=
  match ctx.data with
  | none => (.error (.typeError "context data is not set"), db)
  | some data =>
    let current_fields := fields_by_name db ty
    let missing := find_extra_types current_fields [] data
    let db1 := redefine_with_missing_fields db ty missing
    match create_row_dictG syncF bulkF env reg ty db1 ctx with
    | (.error e, db2) => (.error e, db2)
    | (.ok row_dict, db2) =>
      match update_row ty db2 row_dict with
      | (.error e, db3) => (.error e, db3)
      | (.ok true, db3) => (.ok row_dict, db3)
      | (.ok false, db3) =>
        match insertRow ty db3 row_dict with
        | (.error e, db4) => (.error e, db4)
        | (.ok _, db4) => (.ok row_dict, db4)

/-- The `for index, obj in enumerate(context.seq):` loop of
`JSONType._bulk_sync`: build each row, try the update, queue rows whose
update found nothing. -/
def bulkLoopG (ty : JSONType) (db : DB) (ctx : Context) (i : Int)
    (acc queue : List Row) : List JVal → Except SyncErr (List Row × List Row) × DB
  | [] => (.ok (acc, queue), db)
  | obj :: rest =>
    match obj with
    | .obj fs =>
      let ctxNext := { ctx with index := i, data := some fs }
      match create_row_dictG syncF bulkF env reg ty db ctxNext with
      | (.error e, db') => (.error e, db')
      | (.ok row, db') =>
        match update_row ty db' row with
        | (.error e, db2) => (.error e, db2)
        | (.ok true, db2) =>
          bulkLoopG ty db2 ctxNext (i + 1) (acc ++ [row]) queue rest
        | (.ok false, db2) =>
          bulkLoopG ty db2 ctxNext (i + 1) (acc ++ [row]) (queue ++ [row]) rest
    | _ => (.error (.valueError "AttrDict of a non-mapping"), db)

/-- `JSONType._bulk_sync`: one discovery pass over the whole batch, then
the per-document loop, then a single bulk insert of the queued rows (only
when any). -/
def bulk_syncG (ty : JSONType) (db : DB) (ctx : Context) :
    Except SyncErr (List Row) × DB :=
  match ctx.seq with
  | none => (.error (.typeError "context seq is not set"), db)
  | some docs =>
    let current_fields := fields_by_name db ty
    match find_extra_types_bulk current_fields [] docs with
    | .error e => (.error e, db)
    | .ok missing =>
      let db1 := redefine_with_missing_fields db ty missing
      match bulkLoopG syncF bulkF env reg ty db1 ctx 0 [] [] docs with
      | (.error e, db2) => (.error e, db2)
      | (.ok (rows, queue), db2) =>
        match queue with
        | [] => (.ok rows, db2)
        | _ =>
          match bulk_insert_rows ty db2 queue with
          | (.error e, db3) => (.error e, db3)
          | (.ok _, db3) => (.ok rows, db3)

end EngineG

/-- Unwrap the single-sync half of the tied engine's result. -/
def syncOfEngine : Except SyncErr (Row ⊕ List Row) × DB → Except SyncErr Row × DB
  | (.ok (.inl row), dbRes) => (.ok row, dbRes)
  | (.ok (.inr _), dbRes) => (.error (.typeError "engine shape"), dbRes)
  | (.error e, dbRes) => (.error e, dbRes)

/-- Unwrap the bulk half of the tied engine's result. -/
def bulkOfEngine : Except SyncErr (Row ⊕ List Row) × DB →
    Except SyncErr (List Row) × DB
  | (.ok (.inr rows), dbRes) => (.ok rows, dbRes)
  | (.ok (.inl _), dbRes) => (.error (.typeError "engine shape"), dbRes)
  | (.error e, dbRes) => (.error e, dbRes)

/-- Wrap a single-sync result into the engine's sum form. -/
def wrapSync (r : Except SyncErr Row × DB) : Except SyncErr (Row ⊕ List Row) × DB :=
  match r with
  | (.ok row, dbRes) => (.ok (.inl row), dbRes)
  | (.error e, dbRes) => (.error e, dbRes)

/-- Wrap a bulk result into the engine's sum form. -/
def wrapBulk (r : Except SyncErr (List Row) × DB) :
    Except SyncErr (Row ⊕ List Row) × DB :=
  match r with
  | (.ok rows, dbRes) => (.ok (.inr rows), dbRes)
  | (.error e, dbRes) => (.error e, dbRes)

/-- The tied recursive engine: one structural recursion on fuel serving
both `_sync` (`isBulk = false`, left result) and `_bulk_sync`
(`isBulk = true`, right result); one unit of fuel is consumed per entry,
so any fuel exceeding the document's reference-nesting depth is enough. -/
def engineC : Nat → Env → JSONRegistry → Bool → JSONType → Context → DB →
    Except SyncErr (Row ⊕ List Row) × DB
  | 0, _, _, _, _, _, db => (.error .outOfFuel, db)
  | fuel + 1, env, reg, isBulk, ty, ctx, db =>
    let syncF : JSONType → DB → Context → Except SyncErr Row × DB :=
      fun ty db ctx => syncOfEngine (engineC fuel env reg false ty ctx db)
    let bulkF : JSONType → DB → Context → Except SyncErr (List Row) × DB :=
      fun ty db ctx => bulkOfEngine (engineC fuel env reg true ty ctx db)
    if isBulk then wrapBulk (bulk_syncG syncF bulkF env reg ty db ctx)
    else wrapSync (syncG syncF bulkF env reg ty db ctx)
termination_by structural fuel => fuel

/-- `JSONType._sync` with fuel. -/
def syncC (fuel : Nat) (env : Env) (reg : JSONRegistry) (ty : JSONType)
    (db : DB) (ctx : Context) : Except SyncErr Row × DB :=
  syncOfEngine (engineC fuel env reg false ty ctx db)

/-- `JSONType._bulk_sync` with fuel. -/
def bulk_syncC (fuel : Nat) (env : Env) (reg : JSONRegistry) (ty : JSONType)
    (db : DB) (ctx : Context) : Except SyncErr (List Row) × DB :=
  bulkOfEngine (engineC fuel env reg true ty ctx db)

/-- Collapsing wrap-then-unwrap: unfolding `syncC` at positive fuel gives
exactly the `_sync` body applied to the engine at one unit less fuel. -/
theorem syncOfEngine_wrapSync (r : Except SyncErr Row × DB) :
    syncOfEngine (wrapSync r) = r := by
  rcases r with ⟨rr, dbr⟩
  cases rr <;> rfl

theorem bulkOfEngine_wrapBulk (r : Except SyncErr (List Row) × DB) :
    bulkOfEngine (wrapBulk r) = r := by
  rcases r with ⟨rr, dbr⟩
  cases rr <;> rfl

/-- One-step unfolding of `syncC` at positive fuel. -/
theorem syncC_succ (fuel : Nat) (env : Env) (reg : JSONRegistry) (ty : JSONType)
    (db : DB) (ctx : Context) :
    syncC (fuel + 1) env reg ty db ctx
      = syncG (syncC fuel env reg) (bulk_syncC fuel env reg) env reg ty db ctx :=
  syncOfEngine_wrapSync _

/-- One-step unfolding of `bulk_syncC` at positive fuel. -/
theorem bulk_syncC_succ (fuel : Nat) (env : Env) (reg : JSONRegistry) (ty : JSONType)
    (db : DB) (ctx : Context) :
    bulk_syncC (fuel + 1) env reg ty db ctx
      = bulk_syncG (syncC fuel env reg) (bulk_syncC fuel env reg) env reg ty db ctx :=
  bulkOfEngine_wrapBulk _

/-- `JSONType.sync(db, obj, partial=False)`: fresh root context over the
document. -/
def JSONType.sync (ty : JSONType) (fuel : Nat) (env : Env) (reg : JSONRegistry)
    (db : DB) (obj : JVal) (p : Bool) : Except SyncErr Row × DB :=
  match obj with
  | .obj fs =>
    syncC fuel env reg ty db
      { data := some fs, seq := none, isPartial := p, index := -1,
        parents := [], root := some fs }
  | _ => (.error (.valueError "AttrDict of a non-mapping"), db)

/-- `JSONType.bulk_sync(db, seq, partial=False)`: fresh root context over
the batch. -/
def JSONType.bulk_sync (ty : JSONType) (fuel : Nat) (env : Env) (reg : JSONRegistry)
    (db : DB) (docs : List JVal) (p : Bool) : Except SyncErr (List Row) × DB :=
  bulk_syncC fuel env reg ty db
    { data := none, seq := some docs, isPartial := p, index := -1,
      parents := [], root := none }

/-- A top-level call into the engine (used to state properties over
arbitrary call sequences). -/
inductive SyncCall where
  | single (ty : JSONType) (obj : JVal) (p : Bool)
  | bulk (ty : JSONType) (docs : List JVal) (p : Bool)

/-- Run one call, keeping the database state it reached (a raised
exception leaves already-performed writes committed). -/
def runCall (fuel : Nat) (env : Env) (reg : JSONRegistry) (db : DB) :
    SyncCall → DB
  | .single ty obj p => (ty.sync fuel env reg db obj p).2
  | .bulk ty docs p => (ty.bulk_sync fuel env reg db docs p).2

/-- Run a sequence of calls. -/
def runCalls (fuel : Nat) (env : Env) (reg : JSONRegistry)
    (calls : List SyncCall) (db : DB) : DB :=
  calls.foldl (fun db c => runCall fuel env reg db c) db

/- ===================================================================
   Concrete fixtures used by the claim theorems.
   =================================================================== -/

/-- Environment for scenarios without temporal fields (parsers undefined,
local offset UTC+10h in minutes). -/
def env0 : Env :=
  { localOffset := 600, strptime := fun _ _ => none, parseDate := fun _ _ => none }

/-- The spec's example type: `Person(name: string, age: integer)`. -/
def Person : JSONType :=
  defineType "person" [JSONField.ofName "name" "string", JSONField.ofName "age" "integer"]

def personReg : JSONRegistry := ⟨[Person]⟩

/-- Fresh storage for `Person`: table defined, no rows, empty catalog. -/
def personDB : DB :=
  { catalog := [],
    tables := [("person", { fields := ["id", "name", "age"], rows := [], nextId := 1 })],
    log := [] }

/-- Storage holding one Person row `{id: 1, name: "Ann", age: 30}`. -/
def personDB2 : DB :=
  { catalog := [],
    tables := [("person",
      { fields := ["id", "name", "age"],
        rows := [[("id", .int 1), ("name", .str "Ann"), ("age", .int 30)]],
        nextId := 2 })],
    log := [] }

/-- Storage where an extra field `nickname` was discovered earlier and the
stored Person row carries `nickname = w`. -/
def personDB3 (w : JVal) : DB :=
  { catalog := [{ type := "person", fieldname := "nickname", column_name := none,
                  db_type := "string" }],
    tables := [("person",
      { fields := ["id", "name", "age", "nickname"],
        rows := [[("id", .int 1), ("name", .str "Ann"), ("age", .int 30), ("nickname", w)]],
        nextId := 2 })],
    log := [] }

/-- `Person` with `remove_missing_fields=False`. -/
def PersonKeep : JSONType :=
  { name := "person", table_name := "person", remove_missing_fields := false,
    fields := [JSONField.ofName "name" "string", JSONField.ofName "age" "integer"] }

/-- Storage holding one row with `age = w`, for the `PersonKeep` scenarios. -/
def personDB4 (w : JVal) : DB :=
  { catalog := [],
    tables := [("person",
      { fields := ["id", "name", "age"],
        rows := [[("id", .int 1), ("name", .str "Ann"), ("age", w)]],
        nextId := 2 })],
    log := [] }

/-- Referenced child type `Other(name: string)`. -/
def Other : JSONType := defineType "other" [JSONField.ofName "name" "string"]

/-- Parent type with a `reference other` field. -/
def ParentRef : JSONType := defineType "parent" [JSONField.ofName "friend" "reference other"]

def refReg : JSONRegistry := ⟨[ParentRef, Other]⟩

def refDB : DB :=
  { catalog := [],
    tables := [("parent", { fields := ["id", "friend"], rows := [], nextId := 1 }),
               ("other", { fields := ["id", "name"], rows := [], nextId := 1 })],
    log := [] }

/-- Parent type with a `list:reference other` field. -/
def ParentList : JSONType := defineType "parentl" [JSONField.ofName "kids" "list:reference other"]

def listReg : JSONRegistry := ⟨[ParentList, Other]⟩

def listDB : DB :=
  { catalog := [],
    tables := [("parentl", { fields := ["id", "kids"], rows := [], nextId := 1 }),
               ("other", { fields := ["id", "name"], rows := [], nextId := 1 })],
    log := [] }

/-- A type with one `datetime` field. -/
def Ev : JSONType := defineType "ev" [JSONField.ofName "when" "datetime"]

def evReg : JSONRegistry := ⟨[Ev]⟩

def evDB : DB :=
  { catalog := [],
    tables := [("ev", { fields := ["id", "when"], rows := [], nextId := 1 })],
    log := [] }

/-- An environment whose general-purpose parser knows the one UTC
timestamp string used in the timezone scenario; the local zone is UTC+10h
(600 minutes), so local time differs from UTC. -/
def envDT : Env :=
  { localOffset := 600,
    strptime := fun _ _ => none,
    parseDate := fun _ s =>
      if s = "2020-01-01T12:00:00+00:00" then some { wall := 720, tz := some 0 } else none }

/- ===================================================================
   Claim theorems.
   =================================================================== -/

/-- C1 (counterexample): the spec's end-to-end example — syncing
`{"name":"Ann","age":30,"nickname":"A"}` (no `id` key) into the Person
type — does not insert a row with a generated identifier: `_update_row`
evaluates `row_dict['id']` and the built row has no `id`, so the call
raises KeyError and nothing is inserted. -/
theorem C1_counterexample :
    (Person.sync 9 env0 personReg personDB
        (.obj [("name", .str "Ann"), ("age", .int 30), ("nickname", .str "A")]) false).1
      = .error (.keyError "id")
    ∧ ((Person.sync 9 env0 personReg personDB
        (.obj [("name", .str "Ann"), ("age", .int 30), ("nickname", .str "A")]) false).2.getTable
        "person").map Table.rows = some [] :=
  ⟨rfl, rfl⟩

/-- C1 (amended): for a document containing a previously unseen field and
an `id` key whose value identifies no stored row, sync extends the schema
with a string column for the unseen field, inserts the row under the
document's identifier, and returns the resolved row; a document with no
`id` key instead fails with a KeyError. -/
theorem C1_amended (k : Int) (s : String) :
    (Person.sync 9 env0 personReg personDB
        (.obj [("id", .int k), ("name", .str "Ann"), ("age", .int 30), ("nickname", .str s)])
        false).1
      = .ok [("id", .int k), ("nickname", .str s), ("name", .str "Ann"), ("age", .int 30)]
    ∧ (Person.sync 9 env0 personReg personDB
        (.obj [("id", .int k), ("name", .str "Ann"), ("age", .int 30), ("nickname", .str s)])
        false).2.catalog
      = [{ type := "person", fieldname := "nickname", column_name := none, db_type := "string" }]
    ∧ (Person.sync 9 env0 personReg personDB
        (.obj [("id", .int k), ("name", .str "Ann"), ("age", .int 30), ("nickname", .str s)])
        false).2.getTable "person"
      = some { fields := ["id", "name", "age", "nickname"],
               rows := [[("id", .int k), ("name", .str "Ann"), ("age", .int 30),
                         ("nickname", .str s)]],
               nextId := 1 } :=
  ⟨rfl, rfl, rfl⟩

/-- C2 (code divergence): for a datetime field whose parsed value carries
timezone information (UTC here, local zone UTC+10h), the row stores the
parsed value unchanged — still at offset 0 — because the source line
`value.astimezone(tzlocal())` discards its result; normalizing would have
produced a different (local-time) value. -/
theorem C2_theorem :
    (Ev.sync 9 envDT evReg evDB
        (.obj [("id", .int 1), ("when", .str "2020-01-01T12:00:00+00:00")]) false).1
      = .ok [("id", .int 1), ("when", .pydatetime { wall := 720, tz := some 0 })]
    ∧ envDT.parseDate none "2020-01-01T12:00:00+00:00" = some { wall := 720, tz := some 0 }
    ∧ pyAstimezone envDT.localOffset { wall := 720, tz := some 0 }
      = { wall := 1320, tz := some 600 }
    ∧ ¬ ({ wall := 720, tz := some 0 } : PyDateTime)
        = pyAstimezone envDT.localOffset { wall := 720, tz := some 0 } :=
  ⟨rfl, rfl, rfl, by decide⟩

/-- C5 (counterexample): a nested document under a `reference other` field
that carries no `id` of its own is not synced into an `other` row — the
child sync raises KeyError (its built row has no `id`), the parent call
fails, and the `other` table stays empty. -/
theorem C5_counterexample :
    (ParentRef.sync 9 env0 refReg refDB
        (.obj [("id", .int 1), ("friend", .obj [("name", .str "x")])]) false).1
      = .error (.keyError "id")
    ∧ ((ParentRef.sync 9 env0 refReg refDB
        (.obj [("id", .int 1), ("friend", .obj [("name", .str "x")])]) false).2.getTable
        "other").map Table.rows = some [] :=
  ⟨rfl, rfl⟩

/-- C5 (amended): a nested document under a `reference other` field that
carries its own `id` is synced as an `other` row before the parent row is
written (the child insert precedes the parent insert in the storage log),
and the parent's column holds the identifier taken from the child
document; the child context inherits `partial` (under partial sync an
absent child field is omitted from the child insert); an already-integer
value is stored unchanged with no operation against the `other` table. -/
theorem C5_amended (n m : Int) :
    (ParentRef.sync 9 env0 refReg refDB
        (.obj [("id", .int 1), ("friend", .obj [("id", .int n), ("name", .str "x")])])
        false).1
      = .ok [("id", .int 1), ("friend", .int n)]
    ∧ (ParentRef.sync 9 env0 refReg refDB
        (.obj [("id", .int 1), ("friend", .obj [("id", .int n), ("name", .str "x")])])
        false).2.log
      = [.insertOne "other" [("id", .int n), ("name", .str "x")],
         .insertOne "parent" [("id", .int 1), ("friend", .int n)]]
    ∧ (ParentRef.sync 9 env0 refReg refDB
        (.obj [("id", .int 1), ("friend", .obj [("id", .int n)])]) true).2.log
      = [.insertOne "other" [("id", .int n)],
         .insertOne "parent" [("id", .int 1), ("friend", .int n)]]
    ∧ (ParentRef.sync 9 env0 refReg refDB
        (.obj [("id", .int 1), ("friend", .obj [("id", .int n)])]) false).2.log
      = [.insertOne "other" [("id", .int n), ("name", .null)],
         .insertOne "parent" [("id", .int 1), ("friend", .int n)]]
    ∧ (ParentRef.sync 9 env0 refReg refDB
        (.obj [("id", .int 1), ("friend", .int m)]) false).1
      = .ok [("id", .int 1), ("friend", .int m)]
    ∧ (ParentRef.sync 9 env0 refReg refDB
        (.obj [("id", .int 1), ("friend", .int m)]) false).2.log
      = [.insertOne "parent" [("id", .int 1), ("friend", .int m)]]
    ∧ (ParentRef.sync 9 env0 refReg refDB
        (.obj [("id", .int 1), ("friend", .int m)]) false).2.getTable "other"
      = refDB.getTable "other" :=
  ⟨rfl, rfl, rfl, rfl, rfl, rfl, rfl⟩

/-- C6 (counterexample): the claim's own example
`[5, {"name":"a"}, 7, {"name":"b"}]` fails — the non-integer elements
carry no `id`, their batch sync raises KeyError, the parent sync fails,
and no bulk insert of `other` rows happens. -/
theorem C6_counterexample :
    (ParentList.sync 9 env0 listReg listDB
        (.obj [("id", .int 1),
               ("kids", .list [.int 5, .obj [("name", .str "a")], .int 7,
                               .obj [("name", .str "b")]])]) false).1
      = .error (.keyError "id")
    ∧ ((ParentList.sync 9 env0 listReg listDB
        (.obj [("id", .int 1),
               ("kids", .list [.int 5, .obj [("name", .str "a")], .int 7,
                               .obj [("name", .str "b")]])]) false).2.getTable
        "other").map Table.rows = some [] :=
  ⟨rfl, rfl⟩

/-- C6 (amended): for a `list:reference other` value whose non-integer
elements carry their own `id`s, e.g.
`[5, {"id":a,...}, 7, {"id":b,...}]`, the integer elements are kept in
place, the non-integer elements are synced as one `other` batch (a single
bulk-insert call), and the column value is `[5, a, 7, b]` — identifiers
taken from the element documents, original order preserved.  A
non-sequence value is first coerced into a one-element sequence. -/
theorem C6_amended (a b c : Int) :
    (ParentList.sync 9 env0 listReg listDB
        (.obj [("id", .int 1),
               ("kids", .list [.int 5, .obj [("id", .int a), ("name", .str "x")], .int 7,
                               .obj [("id", .int b), ("name", .str "y")]])]) false).1
      = .ok [("id", .int 1), ("kids", .list [.int 5, .int a, .int 7, .int b])]
    ∧ (ParentList.sync 9 env0 listReg listDB
        (.obj [("id", .int 1),
               ("kids", .list [.int 5, .obj [("id", .int a), ("name", .str "x")], .int 7,
                               .obj [("id", .int b), ("name", .str "y")]])]) false).2.log
      = [.bulkIns "other" [[("id", .int a), ("name", .str "x")],
                           [("id", .int b), ("name", .str "y")]],
         .insertOne "parentl"
           [("id", .int 1), ("kids", .list [.int 5, .int a, .int 7, .int b])]]
    ∧ (ParentList.sync 9 env0 listReg listDB
        (.obj [("id", .int 1), ("kids", .obj [("id", .int c), ("name", .str "z")])]) false).1
      = .ok [("id", .int 1), ("kids", .list [.int c])] :=
  ⟨rfl, rfl, rfl⟩

/-- C7 (counterexample): with `remove_missing_fields=true` (the default)
and `partial=true`, a declared field absent from the document is indeed
skipped during row construction — but `_update_row` knows nothing of
`partial`, so the column is NOT left untouched: the update nulls it
(stored `name`/`age` go from `"Ann"`/`30` to null). -/
theorem C7_counterexample :
    (Person.sync 9 env0 personReg personDB2 (.obj [("id", .int 1)]) true).1
      = .ok [("id", .int 1)]
    ∧ (Person.sync 9 env0 personReg personDB2 (.obj [("id", .int 1)]) true).2.getTable "person"
      = some { fields := ["id", "name", "age"],
               rows := [[("id", .int 1), ("name", .null), ("age", .null)]],
               nextId := 2 } :=
  ⟨rfl, rfl⟩

/-- C7 (amended): with `remove_missing_fields=true` and `partial=false`,
updating an existing row nulls every storage column absent from the built
row (a document omitting a previously-populated field clears that
column); with `partial=true` a declared field absent from the document is
skipped during row construction, but its column is left untouched by the
update only when `remove_missing_fields=false` — with
`remove_missing_fields=true` the update still nulls it. -/
theorem C7_amended (w : JVal) :
    (Person.sync 9 env0 personReg (personDB3 w)
        (.obj [("id", .int 1), ("name", .str "Ann"), ("age", .int 30)]) false).2.getTable
        "person"
      = some { fields := ["id", "name", "age", "nickname"],
               rows := [[("id", .int 1), ("name", .str "Ann"), ("age", .int 30),
                         ("nickname", .null)]],
               nextId := 2 }
    ∧ (PersonKeep.sync 9 env0 ⟨[PersonKeep]⟩ (personDB4 w) (.obj [("id", .int 1)]) true).1
      = .ok [("id", .int 1)]
    ∧ (PersonKeep.sync 9 env0 ⟨[PersonKeep]⟩ (personDB4 w) (.obj [("id", .int 1)]) true).2.getTable
        "person"
      = some { fields := ["id", "name", "age"],
               rows := [[("id", .int 1), ("name", .str "Ann"), ("age", w)]],
               nextId := 2 }
    ∧ (Person.sync 9 env0 personReg (personDB4 w) (.obj [("id", .int 1)]) true).2.getTable
        "person"
      = some { fields := ["id", "name", "age"],
               rows := [[("id", .int 1), ("name", .null), ("age", .null)]],
               nextId := 2 } :=
  ⟨rfl, rfl, rfl, rfl⟩

/- ===================================================================
   C3: type inference.
   =================================================================== -/

/-- Modelled from the spec (claim C3): the spec's vocabulary of "concrete
value kinds" — "(integer, floating-point, boolean, mapping/sequence,
string)" — in which mapping and sequence values form ONE kind. -/
inductive SpecKind where
  | integer | floatingPoint | boolean | mappingOrSequence | stringKind | otherKind
deriving DecidableEq, Repr

/-- Modelled from the spec: the kind of one Python type. -/
def specKindOf : PyType → SpecKind
  | .int => .integer
  | .float => .floatingPoint
  | .bool => .boolean
  | .dict => .mappingOrSequence
  | .list => .mappingOrSequence
  | .tup => .mappingOrSequence
  | .str => .stringKind
  | _ => .otherKind

/-- Modelled from the spec: the set of kinds observed (insertion order). -/
def specKindsOf (ts : List PyType) : List SpecKind :=
  ts.foldl (fun acc t => if specKindOf t ∈ acc then acc else acc ++ [specKindOf t]) []

/-- Modelled from the spec (claim C3): exactly one observed kind maps
integer→integer, mapping-or-sequence→json (structured), boolean→boolean,
floating-point→double; every other case defaults to string. -/
def specInferDbType : List SpecKind → String
  | [k] =>
    match k with
    | .integer => "integer"
    | .mappingOrSequence => "json"
    | .boolean => "boolean"
    | .floatingPoint => "double"
    | _ => "string"
  | _ => "string"

/-- The amended per-Python-type mapping for a single observed type:
int→integer, dict/list/tuple→json, bool→boolean, float→double, anything
else→string. -/
def singleTypeColumn : PyType → String
  | .int => "integer"
  | .dict => "json"
  | .list => "json"
  | .tup => "json"
  | .bool => "boolean"
  | .float => "double"
  | _ => "string"

/-- C3 (counterexample): a field observed once as a mapping (`{}`) and
once as a sequence (`[]`) has, in the spec's kind vocabulary, exactly one
observed kind (mapping-or-sequence), whose claimed storage type is the
structured `json` column — but `_redefine_with_missing_fields` compares
Python types, sees two (`dict` and `list`), and falls back to `string`,
both on the inference function and end-to-end through a bulk sync. -/
theorem C3_counterexample :
    inferDbType [PyType.dict, PyType.list] = "string"
    ∧ specKindsOf [PyType.dict, PyType.list] = [SpecKind.mappingOrSequence]
    ∧ specInferDbType (specKindsOf [PyType.dict, PyType.list]) = "json"
    ∧ (Person.bulk_sync 9 env0 personReg personDB
        [.obj [("id", .int 1), ("extra", .obj [])],
         .obj [("id", .int 2), ("extra", .list [])]] false).2.catalog
      = [{ type := "person", fieldname := "extra", column_name := none,
           db_type := "string" }] :=
  ⟨rfl, rfl, rfl, rfl⟩

theorem inferDbType_of_not_single (ts : List PyType) (h : ¬ ts.length = 1) :
    inferDbType ts = "string" := by
  match ts with
  | [] => rfl
  | [t] => exact absurd rfl h
  | a :: b :: r => rfl

/-- C3 (amended): the inferred storage type is a deterministic function of
the set of observed Python types: for exactly one observed type the column
is `singleTypeColumn` of it (int→integer, dict→json, list→json,
tuple→json, bool→boolean, float→double, anything else — e.g. str —
→string); zero or several observed types give a string column; and a
sync seeing a fresh field `extra` with non-null value `v` records exactly
that inferred type in the catalog. -/
theorem C3_amended (v : JVal) (ts : List PyType) (h1 : ¬ v = JVal.null)
    (h2 : ¬ ts.length = 1) :
    inferDbType [pyTypeOf v] = singleTypeColumn (pyTypeOf v)
    ∧ inferDbType ts = "string"
    ∧ (Person.sync 9 env0 personReg personDB
        (.obj [("id", .int 1), ("extra", v)]) false).2.catalog
      = [{ type := "person", fieldname := "extra", column_name := none,
           db_type := singleTypeColumn (pyTypeOf v) }] := by
  refine ⟨?_, inferDbType_of_not_single ts h2, ?_⟩
  · cases v
    case null => exact absurd rfl h1
    all_goals rfl
  · cases v
    case null => exact absurd rfl h1
    all_goals rfl

/-- C3 (witness): the amended claim at `v = 5`, `ts = []`. -/
theorem C3_amended_witness :
    inferDbType [pyTypeOf (.int 5)] = singleTypeColumn (pyTypeOf (.int 5))
    ∧ inferDbType [] = "string"
    ∧ (Person.sync 9 env0 personReg personDB
        (.obj [("id", .int 1), ("extra", .int 5)]) false).2.catalog
      = [{ type := "person", fieldname := "extra", column_name := none,
           db_type := singleTypeColumn (pyTypeOf (.int 5)) }] :=
  C3_amended (.int 5) [] (by decide) (by decide)

/- ===================================================================
   C10: the returned row is the built row, not the null-filled copy.
   =================================================================== -/

/-- C10: whatever `_sync` returns successfully is exactly the row built by
`_create_row_dict` (on the schema-extended state): the null-filling of
`_update_row` happens on a private copy used only for the storage update,
so the returned row never contains those entries.  Concretely (any prior
value `w`): updating a row whose storage has an extra populated
`nickname` column with a document omitting it returns a row with no
`nickname` key at all, while the stored row's `nickname` is nulled. -/
theorem C10_theorem (syncF : JSONType → DB → Context → Except SyncErr Row × DB)
    (bulkF : JSONType → DB → Context → Except SyncErr (List Row) × DB)
    (env : Env) (reg : JSONRegistry) (ty : JSONType) (db : DB) (ctx : Context)
    (data : Doc) (row : Row) (w : JVal)
    (hdata : ctx.data = some data)
    (hok : (syncG syncF bulkF env reg ty db ctx).1 = .ok row) :
    (create_row_dictG syncF bulkF env reg ty
        (redefine_with_missing_fields db ty
          (find_extra_types (fields_by_name db ty) [] data)) ctx).1 = .ok row
    ∧ (Person.sync 9 env0 personReg (personDB3 w)
        (.obj [("id", .int 1), ("name", .str "Ann"), ("age", .int 30)]) false).1
      = .ok [("id", .int 1), ("name", .str "Ann"), ("age", .int 30)]
    ∧ (Person.sync 9 env0 personReg (personDB3 w)
        (.obj [("id", .int 1), ("name", .str "Ann"), ("age", .int 30)]) false).2.getTable
        "person"
      = some { fields := ["id", "name", "age", "nickname"],
               rows := [[("id", .int 1), ("name", .str "Ann"), ("age", .int 30),
                         ("nickname", .null)]],
               nextId := 2 } := by
  refine ⟨?_, rfl, rfl⟩
  simp only [syncG, hdata] at hok
  rcases hc : create_row_dictG syncF bulkF env reg ty
      (redefine_with_missing_fields db ty
        (find_extra_types (fields_by_name db ty) [] data)) ctx with ⟨rc, dbc⟩
  simp only [hc] at hok
  cases rc with
  | error e => simp at hok
  | ok rcrow =>
    simp only at hok
    rcases hu : update_row ty dbc rcrow with ⟨ru, dbu⟩
    simp only [hu] at hok
    cases ru with
    | error e => simp at hok
    | ok b =>
      cases b with
      | true =>
        simp only [Except.ok.injEq] at hok
        simp only [hc, hok]
      | false =>
        rcases hi : insertRow ty dbu rcrow with ⟨ri, dbi⟩
        simp only [hi] at hok
        cases ri with
        | error e => simp at hok
        | ok u =>
          simp only [Except.ok.injEq] at hok
          simp only [hc, hok]

/-- C10 (witness): the general clause at a concrete sync (document
`{id: 1}` against a fresh Person table) and the scenario at `w = 77`. -/
theorem C10_witness :
    (create_row_dictG (syncC 8 env0 personReg) (bulk_syncC 8 env0 personReg) env0 personReg
        Person
        (redefine_with_missing_fields personDB Person
          (find_extra_types (fields_by_name personDB Person) [] [("id", .int 1)]))
        { data := some [("id", .int 1)], seq := none, isPartial := false, index := -1,
          parents := [], root := some [("id", .int 1)] }).1
      = .ok [("id", .int 1), ("name", .null), ("age", .null)]
    ∧ (Person.sync 9 env0 personReg (personDB3 (.int 77))
        (.obj [("id", .int 1), ("name", .str "Ann"), ("age", .int 30)]) false).1
      = .ok [("id", .int 1), ("name", .str "Ann"), ("age", .int 30)]
    ∧ (Person.sync 9 env0 personReg (personDB3 (.int 77))
        (.obj [("id", .int 1), ("name", .str "Ann"), ("age", .int 30)]) false).2.getTable
        "person"
      = some { fields := ["id", "name", "age", "nickname"],
               rows := [[("id", .int 1), ("name", .str "Ann"), ("age", .int 30),
                         ("nickname", .null)]],
               nextId := 2 } :=
  C10_theorem (syncC 8 env0 personReg) (bulk_syncC 8 env0 personReg) env0 personReg Person
    personDB
    { data := some [("id", .int 1)], seq := none, isPartial := false, index := -1,
      parents := [], root := some [("id", .int 1)] }
    [("id", .int 1)] [("id", .int 1), ("name", .null), ("age", .null)] (.int 77) rfl rfl

/- ===================================================================
   Helper lemmas: association lists.
   =================================================================== -/

theorem alookup_append {α : Type} (xs ys : List (String × α)) (k : String) :
    alookup (xs ++ ys) k
      = match alookup xs k with
        | some v => some v
        | none => alookup ys k := by
  induction xs with
  | nil => rfl
  | cons p rest ih =>
    rcases p with ⟨k1, v1⟩
    by_cases h : k1 = k
    · simp [alookup, h]
    · simp only [List.cons_append, alookup, if_neg h]
      exact ih

theorem alookup_eq_none_iff {α : Type} (xs : List (String × α)) (k : String) :
    alookup xs k = none ↔ ¬ k ∈ xs.map Prod.fst := by
  induction xs with
  | nil => simp [alookup]
  | cons p rest ih =>
    rcases p with ⟨k1, v1⟩
    by_cases h : k1 = k
    · subst h
      simp [alookup]
    · simp [alookup, if_neg h, ih, Ne.symm h]

theorem mem_of_alookup_eq_some {α : Type} {xs : List (String × α)} {k : String}
    {v : α} (h : alookup xs k = some v) : (k, v) ∈ xs := by
  induction xs with
  | nil => exact absurd h (by simp [alookup])
  | cons p rest ih =>
    rcases p with ⟨k1, v1⟩
    simp only [alookup] at h
    by_cases hk : k1 = k
    · rw [if_pos hk] at h
      injection h with h2
      subst hk
      subst h2
      exact List.mem_cons_self _ _
    · rw [if_neg hk] at h
      exact List.mem_cons_of_mem _ (ih h)

theorem alookup_aset_self {α : Type} (xs : List (String × α)) (k : String) (v : α) :
    alookup (aset xs k v) k = some v := by
  induction xs with
  | nil => simp [aset, alookup]
  | cons p rest ih =>
    rcases p with ⟨k1, v1⟩
    by_cases h : k1 = k
    · simp [aset, alookup, h]
    · simp [aset, alookup, if_neg h, ih]

theorem alookup_aset_ne {α : Type} (xs : List (String × α)) {k1 k : String} (v : α)
    (h : ¬ k1 = k) : alookup (aset xs k1 v) k = alookup xs k := by
  induction xs with
  | nil => simp [aset, alookup, h]
  | cons p rest ih =>
    rcases p with ⟨k2, v2⟩
    by_cases h2 : k2 = k1
    · subst h2
      have hset : aset ((k2, v2) :: rest) k2 v = (k2, v) :: rest := by
        simp [aset]
      rw [hset]
      simp [alookup, if_neg h]
    · by_cases h3 : k2 = k
      · simp [aset, if_neg h2, alookup, h3, Ne.symm h]
      · simp [aset, if_neg h2, alookup, if_neg h3, ih]

theorem aset_keys_of_mem {α : Type} (xs : List (String × α)) {k : String} (v : α)
    (h : k ∈ xs.map Prod.fst) : (aset xs k v).map Prod.fst = xs.map Prod.fst := by
  induction xs with
  | nil => simp at h
  | cons p rest ih =>
    rcases p with ⟨k1, v1⟩
    by_cases hk : k1 = k
    · simp [aset, hk]
    · simp only [List.map_cons, List.mem_cons] at h
      rcases h with h | h
      · exact absurd h.symm hk
      · simp [aset, if_neg hk, ih h]

theorem mem_aset {α : Type} {xs : List (String × α)} {k : String} {v : α}
    {p : String × α} (h : p ∈ aset xs k v) : p ∈ xs ∨ p = (k, v) := by
  induction xs with
  | nil =>
    simp only [aset, List.mem_singleton] at h
    exact Or.inr h
  | cons q rest ih =>
    rcases q with ⟨k1, v1⟩
    by_cases hk : k1 = k
    · simp only [aset, if_pos hk, List.mem_cons] at h
      rcases h with h | h
      · exact Or.inr h
      · exact Or.inl (List.mem_cons_of_mem _ h)
    · simp only [aset, if_neg hk, List.mem_cons] at h
      rcases h with h | h
      · exact Or.inl (by simp [h])
      · rcases ih h with h2 | h2
        · exact Or.inl (List.mem_cons_of_mem _ h2)
        · exact Or.inr h2

theorem memStr_iff (l : List String) (k : String) : memStr l k = true ↔ k ∈ l := by
  induction l with
  | nil => simp [memStr]
  | cons c rest ih =>
    by_cases h : c = k
    · simp [memStr, h]
    · simp [memStr, if_neg h, ih, Ne.symm h]

theorem alookup_isSome_iff {α : Type} (xs : List (String × α)) (k : String) :
    (alookup xs k).isSome = true ↔ k ∈ xs.map Prod.fst := by
  rcases h : alookup xs k with _ | v
  · simpa using (alookup_eq_none_iff xs k).mp h
  · simp only [Option.isSome_some, true_iff]
    exact List.mem_map.mpr ⟨(k, v), mem_of_alookup_eq_some h, rfl⟩

theorem normRow_keys (cols : List String) (r : Row) :
    (normRow cols r).map Prod.fst = cols := by
  induction cols with
  | nil => rfl
  | cons c rest ih =>
    simp only [normRow, List.map_cons] at ih ⊢
    rw [ih]

theorem alookup_normRow (cols : List String) (r : Row) (k : String) :
    alookup (normRow cols r) k
      = if k ∈ cols then some ((alookup r k).getD .null) else none := by
  induction cols with
  | nil => simp [normRow, alookup]
  | cons c rest ih =>
    by_cases h : c = k
    · subst h
      simp [normRow, alookup]
    · simp only [normRow, List.map_cons, alookup, if_neg h] at *
      rw [ih]
      simp [List.mem_cons, Ne.symm h]

/- ===================================================================
   Helper lemmas: fields_by_name.
   =================================================================== -/

theorem foldl_fbnStep_lookup_mono (es : List RegEntry)
    (acc : List (String × JSONField)) {k : String} {f : JSONField}
    (h : alookup acc k = some f) : alookup (es.foldl fbnStep acc) k = some f := by
  induction es generalizing acc with
  | nil => exact h
  | cons e rest ih =>
    simp only [List.foldl_cons]
    apply ih
    unfold fbnStep
    by_cases hs : (alookup acc e.fieldname).isSome
    · rw [if_pos hs]
      exact h
    · rw [if_neg hs, alookup_append, h]

theorem foldl_fbnStep_mem_isSome (es : List RegEntry)
    (acc : List (String × JSONField)) {e : RegEntry} (he : e ∈ es) :
    (alookup (es.foldl fbnStep acc) e.fieldname).isSome = true := by
  induction es generalizing acc with
  | nil => simp at he
  | cons e1 rest ih =>
    simp only [List.foldl_cons]
    rcases List.mem_cons.mp he with he1 | he2
    · subst he1
      rcases hs : alookup (fbnStep acc e) e.fieldname with _ | f
      · exfalso
        unfold fbnStep at hs
        by_cases hx : (alookup acc e.fieldname).isSome
        · rw [if_pos hx] at hs
          rw [hs] at hx
          simp at hx
        · rw [if_neg hx, alookup_append] at hs
          rcases hy : alookup acc e.fieldname with _ | g
          · rw [hy] at hs
            simp [alookup] at hs
          · rw [hy] at hs
            simp at hs
      · rw [foldl_fbnStep_lookup_mono rest _ hs]
        rfl
    · exact ih _ he2

/-- Catalog entries of the type are always known afterwards. -/
theorem fbn_catalog_isSome (db : DB) (ty : JSONType) {e : RegEntry}
    (he : e ∈ db.catalog) (ht : e.type = ty.name) :
    (alookup (fields_by_name db ty) e.fieldname).isSome = true := by
  unfold fields_by_name
  apply foldl_fbnStep_mem_isSome
  simp [List.mem_filter, he, ht]

/-- Declared fields are always known. -/
theorem fbn_declared (db : DB) (ty : JSONType) {k : String} {f : JSONField}
    (h : alookup (ty.fields.map (fun f => (f.fieldname, f))) k = some f) :
    alookup (fields_by_name db ty) k = some f :=
  foldl_fbnStep_lookup_mono _ _ h

/-- A known but undeclared field is a synthetic catalog field: its
descriptor is `JSONField.ofName` of its own name, so its column name is
the fieldname itself. -/
theorem foldl_fbnStep_of_base_none (es : List RegEntry)
    (acc : List (String × JSONField)) {k : String} {f : JSONField}
    (hbase : alookup acc k = none)
    (h : alookup (es.foldl fbnStep acc) k = some f) :
    f = JSONField.ofName k f.type := by
  induction es generalizing acc with
  | nil =>
    simp only [List.foldl_nil] at h
    rw [h] at hbase
    cases hbase
  | cons e rest ih =>
    simp only [List.foldl_cons] at h
    simp only [fbnStep] at h
    by_cases hs : (alookup acc e.fieldname).isSome
    · rw [if_pos hs] at h
      exact ih _ hbase h
    · rw [if_neg hs] at h
      by_cases hk : e.fieldname = k
      · subst hk
        have hacc2 : alookup (acc ++ [(e.fieldname, JSONField.ofName e.fieldname e.db_type)])
            e.fieldname = some (JSONField.ofName e.fieldname e.db_type) := by
          rw [alookup_append, hbase]
          simp [alookup]
        rw [foldl_fbnStep_lookup_mono rest _ hacc2] at h
        injection h with h2
        subst h2
        rfl
      · have hacc2 : alookup (acc ++ [(e.fieldname, JSONField.ofName e.fieldname e.db_type)])
            k = none := by
          rw [alookup_append, hbase]
          simp [alookup, hk]
        exact ih _ hacc2 h

/-- Extending the catalog with fresh, distinct fieldnames of this type
appends exactly the corresponding synthetic fields. -/
theorem foldl_fbnStep_fresh (es : List RegEntry) (acc : List (String × JSONField))
    (hfresh : ∀ e ∈ es, alookup acc e.fieldname = none)
    (hnd : (es.map RegEntry.fieldname).Nodup) :
    es.foldl fbnStep acc
      = acc ++ es.map (fun e => (e.fieldname, JSONField.ofName e.fieldname e.db_type)) := by
  induction es generalizing acc with
  | nil => simp
  | cons e rest ih =>
    simp only [List.foldl_cons, List.map_cons]
    have hk : (alookup acc e.fieldname).isSome = false := by
      rw [hfresh e (List.mem_cons_self _ _)]
      rfl
    simp only [fbnStep]
    rw [if_neg (by simp [hk])]
    rw [ih _ ?_ (by simpa using hnd.of_cons)]
    · simp
    · intro e2 he2
      rw [alookup_append, hfresh e2 (List.mem_cons_of_mem _ he2)]
      have : ¬ e.fieldname = e2.fieldname := by
        simp only [List.map_cons, List.nodup_cons] at hnd
        intro hq
        exact hnd.1 (hq ▸ List.mem_map.mpr ⟨e2, he2, rfl⟩)
      simp [alookup, this]

/-- `fields_by_name` after a catalog extension. -/
theorem fields_by_name_catalog_append (db : DB) (ty : JSONType) (es : List RegEntry) :
    fields_by_name { db with catalog := db.catalog ++ es } ty
      = (es.filter (fun e => e.type == ty.name)).foldl fbnStep (fields_by_name db ty) := by
  unfold fields_by_name
  rw [show ({ db with catalog := db.catalog ++ es } : DB).catalog = db.catalog ++ es from rfl]
  rw [List.filter_append, List.foldl_append]

/- ===================================================================
   Helper lemmas: find_extra_types.
   =================================================================== -/

/-- Key discipline of the discovery accumulator relative to the known
fields it was computed against. -/
def fetKeyOk (cf : List (String × JSONField)) (p : String × List PyType) : Prop :=
  alookup cf p.1 = none ∧ ¬ p.1 = "id"

theorem mem_addObservedKind {m : List (String × List PyType)} {k : String}
    {t : PyType} {p : String × List PyType} (h : p ∈ addObservedKind m k t) :
    p ∈ m ∨ p.1 = k := by
  unfold addObservedKind at h
  rcases hl : alookup m k with _ | ks
  · simp only [hl] at h
    rcases List.mem_append.mp h with h2 | h2
    · exact Or.inl h2
    · simp at h2
      exact Or.inr (by rw [h2])
  · simp only [hl] at h
    by_cases ht : t ∈ ks
    · rw [if_pos ht] at h
      exact Or.inl h
    · rw [if_neg ht] at h
      rcases mem_aset h with h2 | h2
      · exact Or.inl h2
      · exact Or.inr (by rw [h2])

theorem addObservedKind_keys (m : List (String × List PyType)) (k : String)
    (t : PyType) :
    (addObservedKind m k t).map Prod.fst
      = if (alookup m k).isSome then m.map Prod.fst else m.map Prod.fst ++ [k] := by
  unfold addObservedKind
  rcases hl : alookup m k with _ | ks
  · simp [hl]
  · simp only [hl, Option.isSome_some, if_true]
    by_cases ht : t ∈ ks
    · rw [if_pos ht]
    · rw [if_neg ht]
      exact aset_keys_of_mem m _ ((alookup_isSome_iff m k).mp (by rw [hl]; rfl))

theorem addObservedKind_lookup_isSome (m : List (String × List PyType)) (k : String)
    (t : PyType) : (alookup (addObservedKind m k t) k).isSome = true := by
  rw [alookup_isSome_iff, addObservedKind_keys]
  by_cases hs : (alookup m k).isSome
  · rw [if_pos hs]
    exact (alookup_isSome_iff m k).mp hs
  · rw [if_neg hs]
    simp

theorem addObservedKind_lookup_mono (m : List (String × List PyType))
    (k k2 : String) (t : PyType) (h : (alookup m k2).isSome = true) :
    (alookup (addObservedKind m k t) k2).isSome = true := by
  rw [alookup_isSome_iff, addObservedKind_keys]
  have h2 := (alookup_isSome_iff m k2).mp h
  by_cases hs : (alookup m k).isSome
  · rw [if_pos hs]
    exact h2
  · rw [if_neg hs]
    simp [h2]

theorem fet_lookup_mono (cf : List (String × JSONField)) (obj : Doc)
    (m : List (String × List PyType)) (k : String)
    (h : (alookup m k).isSome = true) :
    (alookup (find_extra_types cf m obj) k).isSome = true := by
  induction obj generalizing m with
  | nil => exact h
  | cons p rest ih =>
    simp only [find_extra_types, List.foldl_cons] at *
    apply ih
    unfold fetStep
    by_cases h1 : (alookup cf p.1).isSome
    · rw [if_pos h1]; exact h
    · rw [if_neg h1]
      by_cases h2 : p.1 = "id"
      · rw [if_pos h2]; exact h
      · rw [if_neg h2]
        by_cases h3 : p.2 = JVal.null
        · rw [if_pos h3]; exact h
        · rw [if_neg h3]
          exact addObservedKind_lookup_mono _ _ _ _ h

/-- Completeness: an unknown, non-null, non-id key of the document is in
the accumulated missing-field map. -/
theorem fet_complete (cf : List (String × JSONField)) (obj : Doc)
    (m : List (String × List PyType)) {k : String} {v : JVal}
    (hm : (k, v) ∈ obj) (hnn : ¬ v = JVal.null) (hid : ¬ k = "id")
    (hcf : alookup cf k = none) :
    (alookup (find_extra_types cf m obj) k).isSome = true := by
  induction obj generalizing m with
  | nil => simp at hm
  | cons p rest ih =>
    simp only [find_extra_types, List.foldl_cons] at *
    rcases List.mem_cons.mp hm with he | he
    · subst he
      apply fet_lookup_mono
      unfold fetStep
      rw [if_neg (by simp [hcf]), if_neg hid, if_neg hnn]
      exact addObservedKind_lookup_isSome _ _ _
    · exact ih _ he

/-- Soundness: every accumulated key is unknown and not `id`, and the
keys are distinct. -/
theorem fet_inv (cf : List (String × JSONField)) (obj : Doc)
    (m : List (String × List PyType))
    (h1 : ∀ p ∈ m, fetKeyOk cf p) (h2 : (m.map Prod.fst).Nodup) :
    (∀ p ∈ find_extra_types cf m obj, fetKeyOk cf p)
    ∧ ((find_extra_types cf m obj).map Prod.fst).Nodup := by
  induction obj generalizing m with
  | nil => exact ⟨h1, h2⟩
  | cons p rest ih =>
    simp only [find_extra_types, List.foldl_cons] at *
    apply ih
    · intro q hq
      unfold fetStep at hq
      by_cases c1 : (alookup cf p.1).isSome
      · rw [if_pos c1] at hq
        exact h1 q hq
      · rw [if_neg c1] at hq
        by_cases c2 : p.1 = "id"
        · rw [if_pos c2] at hq
          exact h1 q hq
        · rw [if_neg c2] at hq
          by_cases c3 : p.2 = JVal.null
          · rw [if_pos c3] at hq
            exact h1 q hq
          · rw [if_neg c3] at hq
            rcases mem_addObservedKind hq with h3 | h3
            · exact h1 q h3
            · refine ⟨?_, by rw [h3]; exact c2⟩
              rw [h3]
              rcases hx : alookup cf p.1 with _ | f
              · rfl
              · rw [hx] at c1
                simp at c1
    · unfold fetStep
      by_cases c1 : (alookup cf p.1).isSome
      · rw [if_pos c1]; exact h2
      · rw [if_neg c1]
        by_cases c2 : p.1 = "id"
        · rw [if_pos c2]; exact h2
        · rw [if_neg c2]
          by_cases c3 : p.2 = JVal.null
          · rw [if_pos c3]; exact h2
          · rw [if_neg c3]
            rw [addObservedKind_keys]
            by_cases c4 : (alookup m p.1).isSome
            · rw [if_pos c4]; exact h2
            · rw [if_neg c4]
              refine List.Nodup.append h2 (by simp) ?_
              intro a ha hb
              simp only [List.mem_singleton] at hb
              subst hb
              exact c4 ((alookup_isSome_iff m _).mpr ha)

/-- When every non-null non-id key is already known, discovery finds
nothing. -/
theorem fet_nothing_new (cf : List (String × JSONField)) (obj : Doc)
    (m : List (String × List PyType))
    (hall : ∀ p ∈ obj, ¬ p.2 = JVal.null → ¬ p.1 = "id" →
      (alookup cf p.1).isSome = true) :
    find_extra_types cf m obj = m := by
  induction obj with
  | nil => rfl
  | cons p rest ih =>
    simp only [find_extra_types, List.foldl_cons] at *
    have hstep : fetStep cf m p = m := by
      unfold fetStep
      by_cases c1 : (alookup cf p.1).isSome
      · rw [if_pos c1]
      · rw [if_neg c1]
        by_cases c2 : p.1 = "id"
        · rw [if_pos c2]
        · rw [if_neg c2]
          by_cases c3 : p.2 = JVal.null
          · rw [if_pos c3]
          · exact absurd (hall p (List.mem_cons_self _ _) c3 c2) c1
    rw [hstep]
    exact ih (fun q hq => hall q (List.mem_cons_of_mem _ hq))

/- ===================================================================
   Helper lemmas: simple (scalar, non-computed) fields.
   =================================================================== -/

/-- A declared field with no compute function, no temporal parsing and no
reference resolution. -/
def simpleField (f : JSONField) : Bool :=
  f.compute.isNone && !(f.type == "datetime") && !(f.type == "date")
    && !(f.type == "time") && (refMatch f.type).isNone

/-- The declared-fields loop output for simple fields: each field is
skipped in partial mode when absent, otherwise its column is set to the
document value (null when absent). -/
def simpleRowFields (p : Bool) (data : Doc) : Row → List JSONField → Row
  | row, [] => row
  | row, f :: rest =>
    if p && (alookup data f.fieldname).isNone then simpleRowFields p data row rest
    else
      simpleRowFields p data
        (aset row f.column_name ((alookup data f.fieldname).getD .null)) rest

theorem processFieldG_simple (syncF : JSONType → DB → Context → Except SyncErr Row × DB)
    (bulkF : JSONType → DB → Context → Except SyncErr (List Row) × DB)
    (env : Env) (reg : JSONRegistry) (ty : JSONType) (db : DB) (ctx : Context)
    (row : Row) (field : JSONField) (data : Doc)
    (hs : simpleField field = true) (hd : ctx.data = some data) :
    processFieldG syncF bulkF env reg ty db ctx row field
      = (if ctx.isPartial && (alookup data field.fieldname).isNone then (.ok row, db)
         else (.ok (aset row field.column_name
            ((alookup data field.fieldname).getD .null)), db)) := by
  simp only [simpleField, Bool.and_eq_true, Bool.not_eq_true', beq_eq_false_iff_ne,
    ne_eq, Option.isNone_iff_eq_none] at hs
  obtain ⟨⟨⟨⟨hc, ht1⟩, ht2⟩, ht3⟩, hr⟩ := hs
  have htmp : processTemporal env field ((alookup data field.fieldname).getD .null)
      = .ok ((alookup data field.fieldname).getD .null) := by
    unfold processTemporal
    rw [if_neg]
    intro hor
    rcases hor with h | h | h
    · exact ht1 h
    · exact ht2 h
    · exact ht3 h
  simp only [processFieldG, hc, hd]
  by_cases hp : (ctx.isPartial && (alookup data field.fieldname).isNone) = true
  · rw [if_pos hp, if_pos hp]
  · rw [if_neg hp, if_neg hp]
    by_cases hv : ((alookup data field.fieldname).getD .null) = JVal.null
    · rw [if_pos hv, hv]
    · rw [if_neg hv]
      simp only [htmp, hr]

theorem processFieldsG_simple (syncF : JSONType → DB → Context → Except SyncErr Row × DB)
    (bulkF : JSONType → DB → Context → Except SyncErr (List Row) × DB)
    (env : Env) (reg : JSONRegistry) (ty : JSONType) (db : DB) (ctx : Context)
    (row : Row) (fields : List JSONField) (data : Doc)
    (hs : fields.all simpleField = true) (hd : ctx.data = some data) :
    processFieldsG syncF bulkF env reg ty db ctx row fields
      = (.ok (simpleRowFields ctx.isPartial data row fields), db) := by
  induction fields generalizing row with
  | nil => rfl
  | cons f rest ih =>
    simp only [List.all_cons, Bool.and_eq_true] at hs
    simp only [processFieldsG,
      processFieldG_simple syncF bulkF env reg ty db ctx row f data hs.1 hd]
    by_cases hp : (ctx.isPartial && (alookup data f.fieldname).isNone) = true
    · rw [if_pos hp]
      simp only [simpleRowFields, if_pos hp]
      exact ih _ hs.2
    · rw [if_neg hp]
      simp only [simpleRowFields, if_neg hp]
      exact ih _ hs.2

theorem create_row_dictG_simple
    (syncF : JSONType → DB → Context → Except SyncErr Row × DB)
    (bulkF : JSONType → DB → Context → Except SyncErr (List Row) × DB)
    (env : Env) (reg : JSONRegistry) (ty : JSONType) (db : DB) (ctx : Context)
    (data : Doc) (t : Table)
    (hs : ty.fields.all simpleField = true) (hd : ctx.data = some data)
    (ht : db.getTable ty.table_name = some t) :
    create_row_dictG syncF bulkF env reg ty db ctx
      = (.ok (simpleRowFields ctx.isPartial data
          (row0Of (ty.fields.map (fun f => (f.fieldname, f))) t.fields data)
          ty.fields), db) := by
  simp only [create_row_dictG, hd, ht]
  exact processFieldsG_simple syncF bulkF env reg ty db ctx _ ty.fields data hs hd

/- ===================================================================
   Helper lemmas: contents of built rows.
   =================================================================== -/

theorem mem_keys_aset {α : Type} {xs : List (String × α)} {k k2 : String} {v : α}
    (h : k2 ∈ (aset xs k v).map Prod.fst) : k2 ∈ xs.map Prod.fst ∨ k2 = k := by
  rcases List.mem_map.mp h with ⟨p, hp, hk⟩
  rcases mem_aset hp with h2 | h2
  · exact Or.inl (hk ▸ List.mem_map.mpr ⟨p, h2, rfl⟩)
  · subst h2
    exact Or.inr hk.symm

theorem simpleRowFields_keys {p : Bool} {data : Doc} {fs : List JSONField} :
    ∀ {row : Row} {k : String},
      k ∈ (simpleRowFields p data row fs).map Prod.fst →
      k ∈ row.map Prod.fst ∨ k ∈ fs.map JSONField.column_name := by
  induction fs with
  | nil =>
    intro row k h
    exact Or.inl h
  | cons f rest ih =>
    intro row k h
    simp only [simpleRowFields] at h
    by_cases hp : (p && (alookup data f.fieldname).isNone) = true
    · rw [if_pos hp] at h
      rcases ih h with h2 | h2
      · exact Or.inl h2
      · exact Or.inr (List.mem_cons_of_mem _ h2)
    · rw [if_neg hp] at h
      rcases ih h with h2 | h2
      · rcases mem_keys_aset h2 with h3 | h3
        · exact Or.inl h3
        · exact Or.inr (h3 ▸ List.mem_cons_self _ _)
      · exact Or.inr (List.mem_cons_of_mem _ h2)

theorem simpleRowFields_lookup_frozen (p : Bool) (data : Doc) (fs : List JSONField)
    (k : String) (hf : ∀ f ∈ fs, ¬ f.column_name = k) :
    ∀ row, alookup (simpleRowFields p data row fs) k = alookup row k := by
  induction fs with
  | nil => intro row; rfl
  | cons f rest ih =>
    intro row
    simp only [simpleRowFields]
    by_cases hp : (p && (alookup data f.fieldname).isNone) = true
    · rw [if_pos hp]
      exact ih (fun g hg => hf g (List.mem_cons_of_mem _ hg)) row
    · rw [if_neg hp]
      rw [ih (fun g hg => hf g (List.mem_cons_of_mem _ hg)) _]
      exact alookup_aset_ne _ _ (hf f (List.mem_cons_self _ _))

theorem row0_foldl_frozen (declared : List (String × JSONField)) (tf : List String)
    (data : Doc) (k : String) (hk : ¬ k ∈ data.map Prod.fst) :
    ∀ r, alookup (data.foldl (row0Step declared tf) r) k = alookup r k := by
  induction data with
  | nil => intro r; rfl
  | cons q rest ih =>
    intro r
    simp only [List.map_cons, List.mem_cons, not_or] at hk
    simp only [List.foldl_cons]
    rw [ih hk.2]
    unfold row0Step
    by_cases c1 : (alookup declared q.1).isSome
    · rw [if_pos c1]
    · rw [if_neg c1]
      by_cases c2 : ¬ q.2 = JVal.null ∨ memStr tf q.1 = true
      · rw [if_pos c2]
        exact alookup_aset_ne _ _ (fun h => hk.1 h.symm)
      · rw [if_neg c2]

theorem row0_foldl_lookup (declared : List (String × JSONField)) (tf : List String)
    {data : Doc} {k : String} {v : JVal}
    (hnd : (data.map Prod.fst).Nodup) (hm : (k, v) ∈ data)
    (hdecl : alookup declared k = none)
    (hkeep : ¬ v = JVal.null ∨ memStr tf k = true) :
    ∀ r, alookup (data.foldl (row0Step declared tf) r) k = some v := by
  induction data with
  | nil => simp at hm
  | cons q rest ih =>
    intro r
    simp only [List.map_cons, List.nodup_cons] at hnd
    simp only [List.foldl_cons]
    rcases List.mem_cons.mp hm with he | he
    · subst he
      have hfrozen : ¬ k ∈ rest.map Prod.fst := by
        simpa using hnd.1
      rw [row0_foldl_frozen declared tf rest k hfrozen]
      unfold row0Step
      simp only
      rw [if_neg (by simp [hdecl]), if_pos hkeep]
      exact alookup_aset_self _ _ _
    · have hk1 : ¬ q.1 = k := by
        intro hq
        exact hnd.1 (hq ▸ List.mem_map.mpr ⟨(k, v), he, rfl⟩)
      apply ih hnd.2 he

theorem row0_keys (declared : List (String × JSONField)) (tf : List String)
    (data : Doc) :
    ∀ {r : Row} {k : String},
      k ∈ (data.foldl (row0Step declared tf) r).map Prod.fst →
      k ∈ r.map Prod.fst
        ∨ ∃ v, (k, v) ∈ data ∧ alookup declared k = none
            ∧ (¬ v = JVal.null ∨ memStr tf k = true) := by
  induction data with
  | nil =>
    intro r k h
    exact Or.inl h
  | cons q rest ih =>
    intro r k h
    simp only [List.foldl_cons] at h
    rcases ih h with h2 | h2
    · unfold row0Step at h2
      by_cases c1 : (alookup declared q.1).isSome
      · rw [if_pos c1] at h2
        exact Or.inl h2
      · rw [if_neg c1] at h2
        by_cases c2 : ¬ q.2 = JVal.null ∨ memStr tf q.1 = true
        · rw [if_pos c2] at h2
          rcases mem_keys_aset h2 with h3 | h3
          · exact Or.inl h3
          · subst h3
            refine Or.inr ⟨q.2, List.mem_cons_self _ _, ?_, c2⟩
            rcases hx : alookup declared q.1 with _ | f
            · rfl
            · rw [hx] at c1; simp at c1
        · rw [if_neg c2] at h2
          exact Or.inl h2
    · rcases h2 with ⟨v, hv, hd2, hk2⟩
      exact Or.inr ⟨v, List.mem_cons_of_mem _ hv, hd2, hk2⟩

/- ===================================================================
   Helper lemmas: schema extension.
   =================================================================== -/

theorem foldl_fbnStep_prefix (es : List RegEntry) (acc : List (String × JSONField)) :
    ∃ tail, es.foldl fbnStep acc = acc ++ tail := by
  induction es generalizing acc with
  | nil => exact ⟨[], by simp⟩
  | cons e rest ih =>
    simp only [List.foldl_cons]
    unfold fbnStep
    by_cases hs : (alookup acc e.fieldname).isSome
    · rw [if_pos hs]
      exact ih acc
    · rw [if_neg hs]
      rcases ih (acc ++ [(e.fieldname, JSONField.ofName e.fieldname e.db_type)]) with ⟨tail, htail⟩
      exact ⟨_ :: tail, by simpa using htail⟩

theorem declared_prefix_fbn (db : DB) (ty : JSONType) :
    ∃ tail, fields_by_name db ty = ty.fields.map (fun f => (f.fieldname, f)) ++ tail :=
  foldl_fbnStep_prefix _ _

/-- `fields_by_name` only reads the catalog. -/
theorem fbn_catalog_eq {db db2 : DB} (ty : JSONType) (h : db.catalog = db2.catalog) :
    fields_by_name db ty = fields_by_name db2 ty := by
  unfold fields_by_name
  rw [h]

/-- The catalog rows written by `_redefine_with_missing_fields`. -/
def missingEntries (ty : JSONType) (missing : List (String × List PyType)) :
    List RegEntry :=
  missing.map (fun p =>
    { type := ty.name, fieldname := p.1, column_name := none,
      db_type := inferDbType p.2 })

theorem rwmf_nil (db : DB) (ty : JSONType) :
    redefine_with_missing_fields db ty [] = db := rfl

theorem rwmf_eq (db : DB) (ty : JSONType) (p0 : String × List PyType)
    (ms : List (String × List PyType)) :
    redefine_with_missing_fields db ty (p0 :: ms)
      = redefine_table
          { db with catalog := db.catalog ++ missingEntries ty (p0 :: ms),
                    log := db.log ++ [.catalogIns (missingEntries ty (p0 :: ms))] } ty := by
  unfold redefine_with_missing_fields add_fields_to_type missingEntries
  simp only [List.map_cons, List.map_map]
  rfl

theorem missingEntries_keys (ty : JSONType) (ms : List (String × List PyType)) :
    (missingEntries ty ms).map RegEntry.fieldname = ms.map Prod.fst := by
  simp [missingEntries, List.map_map, Function.comp]

theorem missingEntries_types (ty : JSONType) (ms : List (String × List PyType)) :
    ∀ e ∈ missingEntries ty ms, e.type = ty.name := by
  intro e he
  rcases List.mem_map.mp he with ⟨p, _, hpe⟩
  rw [← hpe]

/-- After extending the catalog with the discovered fields,
`fields_by_name` is the old map plus one synthetic field per discovered
fieldname (they are fresh and distinct by `fet_inv`). -/
theorem fbn_after_extension (db : DB) (ty : JSONType)
    (ms : List (String × List PyType))
    (hfresh : ∀ p ∈ ms, fetKeyOk (fields_by_name db ty) p)
    (hnd : (ms.map Prod.fst).Nodup) :
    fields_by_name { db with catalog := db.catalog ++ missingEntries ty ms } ty
      = fields_by_name db ty
        ++ (missingEntries ty ms).map
            (fun e => (e.fieldname, JSONField.ofName e.fieldname e.db_type)) := by
  rw [fields_by_name_catalog_append]
  have hfilter : (missingEntries ty ms).filter (fun e => e.type == ty.name)
      = missingEntries ty ms := by
    apply List.filter_eq_self.mpr
    intro e he
    simp [missingEntries_types ty ms e he]
  rw [hfilter]
  apply foldl_fbnStep_fresh
  · intro e he
    rcases List.mem_map.mp he with ⟨p, hp, hpe⟩
    rw [← hpe]
    exact (hfresh p hp).1
  · rw [missingEntries_keys]
    exact hnd

theorem getTable_redefine (db : DB) (ty : JSONType) :
    (redefine_table db ty).getTable ty.table_name
      = some { fields := "id" :: (fields_by_name db ty).map (fun p => p.2.column_name),
               rows :=
                 match db.getTable ty.table_name with
                 | some t => t.rows.map (normRow
                     ("id" :: (fields_by_name db ty).map (fun p => p.2.column_name)))
                 | none => [],
               nextId :=
                 match db.getTable ty.table_name with
                 | some t => t.nextId
                 | none => 1 } := by
  unfold redefine_table
  rcases h : db.getTable ty.table_name with _ | t
  · simp only [DB.getTable, DB.setTable, DB.pushLog]
    rw [alookup_aset_self]
  · simp only [DB.getTable, DB.setTable, DB.pushLog]
    rw [alookup_aset_self]

theorem getTable_redefine_ne (db : DB) (ty : JSONType) (tn : String)
    (h : ¬ ty.table_name = tn) :
    (redefine_table db ty).getTable tn = db.getTable tn := by
  unfold redefine_table
  simp only [DB.getTable, DB.setTable, DB.pushLog]
  exact alookup_aset_ne _ _ h

theorem redefine_catalog (db : DB) (ty : JSONType) :
    (redefine_table db ty).catalog = db.catalog := rfl

theorem normRow_id (cols : List String) (r : Row) (hc : "id" ∈ cols)
    (hk : "id" ∈ r.map Prod.fst) :
    alookup (normRow cols r) "id" = alookup r "id" := by
  rw [alookup_normRow, if_pos hc]
  rcases h : alookup r "id" with _ | v
  · exact absurd ((alookup_eq_none_iff r "id").mp h) (by simp [hk])
  · rfl

/- ===================================================================
   Helper lemmas: consistent tables and the extension step.
   =================================================================== -/

/-- The table matches what `redefine_table` would produce for the current
catalog: right columns, fully-normalized rows. -/
def tableConsistent (db : DB) (ty : JSONType) (t : Table) : Prop :=
  db.getTable ty.table_name = some t
  ∧ t.fields = "id" :: (fields_by_name db ty).map (fun p => p.2.column_name)
  ∧ ∀ r ∈ t.rows, r.map Prod.fst = t.fields

theorem extend_consistent (db : DB) (ty : JSONType) (t0 : Table) (data : Doc)
    (hcons : tableConsistent db ty t0) :
    ∃ t1, tableConsistent (redefine_with_missing_fields db ty
        (find_extra_types (fields_by_name db ty) [] data)) ty t1
      ∧ t1.nextId = t0.nextId
      ∧ t1.rows.map (fun r => alookup r "id") = t0.rows.map (fun r => alookup r "id")
      ∧ (∀ k, k ∈ t0.fields → k ∈ t1.fields)
      ∧ (∀ k v, (k, v) ∈ data → ¬ v = JVal.null → ¬ k = "id" →
          (alookup (fields_by_name (redefine_with_missing_fields db ty
            (find_extra_types (fields_by_name db ty) [] data)) ty) k).isSome = true) := by
  obtain ⟨ht, hf, hrows⟩ := hcons
  have hinv := fet_inv (fields_by_name db ty) data [] (by simp) (by simp)
  rcases hms : find_extra_types (fields_by_name db ty) [] data with _ | ⟨p0, ms⟩
  · refine ⟨t0, ⟨ht, hf, hrows⟩, rfl, rfl, fun k hk => hk, ?_⟩
    intro k v hm hnn hid
    by_cases hs : (alookup (fields_by_name db ty) k).isSome
    · simpa [rwmf_nil] using hs
    · exfalso
      have := fet_complete (fields_by_name db ty) data [] hm hnn hid
        (by rcases hx : alookup (fields_by_name db ty) k with _ | f
            · rfl
            · rw [hx] at hs; simp at hs)
      rw [hms] at this
      simp [alookup] at this
  · rw [rwmf_eq]
    set dbc : DB :=
      { db with catalog := db.catalog ++ missingEntries ty (p0 :: ms),
                log := db.log ++ [.catalogIns (missingEntries ty (p0 :: ms))] } with hdbc
    have hfbn_c : fields_by_name dbc ty
        = fields_by_name db ty
          ++ (missingEntries ty (p0 :: ms)).map
              (fun e => (e.fieldname, JSONField.ofName e.fieldname e.db_type)) := by
      rw [hdbc]
      apply fbn_after_extension
      · intro p hp
        exact (hms ▸ hinv.1) p hp
      · exact hms ▸ hinv.2
    have hget_c : dbc.getTable ty.table_name = some t0 := ht
    have hfbn_r : fields_by_name (redefine_table dbc ty) ty = fields_by_name dbc ty :=
      fbn_catalog_eq ty (redefine_catalog dbc ty)
    refine ⟨_, ⟨getTable_redefine dbc ty, ?_, ?_⟩, ?_, ?_, ?_, ?_⟩
    · simp only [hfbn_r]
    · intro r hr
      simp only [hget_c] at hr
      rcases List.mem_map.mp hr with ⟨r0, _, hr0⟩
      rw [← hr0]
      exact normRow_keys _ _
    · simp only [hget_c]
    · simp only [hget_c, List.map_map]
      apply List.map_congr_left
      intro r hr
      simp only [Function.comp_apply]
      apply normRow_id
      · exact List.mem_cons_self _ _
      · rw [hrows r hr, hf]
        exact List.mem_cons_self _ _
    · intro k hk
      simp only
      rw [hf] at hk
      rcases List.mem_cons.mp hk with hk | hk
      · exact hk ▸ List.mem_cons_self _ _
      · apply List.mem_cons_of_mem
        rw [hfbn_c, List.map_append]
        exact List.mem_append_left _ hk
    · intro k v hm hnn hid
      rw [hfbn_r, hfbn_c, alookup_isSome_iff, List.map_append]
      by_cases hs : (alookup (fields_by_name db ty) k).isSome
      · exact List.mem_append_left _ ((alookup_isSome_iff _ _).mp hs)
      · apply List.mem_append_right
        have hcf : alookup (fields_by_name db ty) k = none := by
          rcases hx : alookup (fields_by_name db ty) k with _ | f
          · rfl
          · rw [hx] at hs; simp at hs
        have hin := fet_complete (fields_by_name db ty) data [] hm hnn hid hcf
        rw [hms] at hin
        have hkin := (alookup_isSome_iff _ _).mp hin
        rw [List.map_map]
        have : (Prod.fst ∘ fun e : RegEntry =>
            (e.fieldname, JSONField.ofName e.fieldname e.db_type)) = RegEntry.fieldname := by
          funext e
          rfl
        rw [this, missingEntries_keys]
        exact hkin

/- ===================================================================
   Helper lemmas: update / insert characterizations.
   =================================================================== -/

theorem built_row_facts (db1 : DB) (ty : JSONType) (t1 : Table) (data : Doc) (p : Bool)
    (hcons : tableConsistent db1 ty t1)
    (hknown : ∀ k v, (k, v) ∈ data → ¬ v = JVal.null → ¬ k = "id" →
        (alookup (fields_by_name db1 ty) k).isSome = true)
    (hnoid : ∀ f ∈ ty.fields, ¬ f.fieldname = "id" ∧ ¬ f.column_name = "id")
    (hnd : (data.map Prod.fst).Nodup)
    {idv : JVal} (hid : alookup data "id" = some idv) (hidnn : ¬ idv = JVal.null) :
    alookup (simpleRowFields p data
        (row0Of (ty.fields.map fun f => (f.fieldname, f)) t1.fields data) ty.fields)
        "id" = some idv
    ∧ (∀ k, k ∈ (simpleRowFields p data
        (row0Of (ty.fields.map fun f => (f.fieldname, f)) t1.fields data)
        ty.fields).map Prod.fst → memStr t1.fields k = true) := by
  obtain ⟨ht, hf, hrows⟩ := hcons
  have hdecl_id : alookup (ty.fields.map fun f => (f.fieldname, f)) "id" = none := by
    rw [alookup_eq_none_iff]
    intro hmem
    rcases List.mem_map.mp hmem with ⟨q, hq, hq2⟩
    rcases List.mem_map.mp hq with ⟨f, hfm, hfq⟩
    exact (hnoid f hfm).1 (by rw [← hq2, ← hfq])
  constructor
  · rw [simpleRowFields_lookup_frozen p data ty.fields "id"
      (fun f hfm => (hnoid f hfm).2)]
    exact row0_foldl_lookup _ t1.fields hnd (mem_of_alookup_eq_some hid) hdecl_id
      (Or.inl hidnn) []
  · intro k hk
    rw [memStr_iff]
    rcases simpleRowFields_keys hk with h2 | h2
    · rcases row0_keys _ _ _ h2 with h3 | h3
      · simp at h3
      · rcases h3 with ⟨v, hv, hdk, hkeep⟩
        rcases hkeep with hnn | hcol
        · by_cases hkid : k = "id"
          · subst hkid
            rw [hf]
            exact List.mem_cons_self _ _
          · have hks := hknown k v hv hnn hkid
            rcases hx : alookup (fields_by_name db1 ty) k with _ | f
            · rw [hx] at hks; simp at hks
            · have hcolk : f = JSONField.ofName k f.type :=
                foldl_fbnStep_of_base_none _ _ hdk hx
              have hmem := mem_of_alookup_eq_some hx
              rw [hf]
              apply List.mem_cons_of_mem
              refine List.mem_map.mpr ⟨(k, f), hmem, ?_⟩
              rw [hcolk]
              rfl
        · exact (memStr_iff _ _).mp hcol
    · rcases List.mem_map.mp h2 with ⟨f, hfm, hfc⟩
      rcases declared_prefix_fbn db1 ty with ⟨tail, htail⟩
      rw [hf]
      apply List.mem_cons_of_mem
      refine List.mem_map.mpr ⟨(f.fieldname, f), ?_, hfc⟩
      rw [htail]
      exact List.mem_append_left _ (List.mem_map.mpr ⟨f, hfm, rfl⟩)

theorem update_row_not_found (ty : JSONType) (db : DB) (t : Table) (row : Row)
    (idv : JVal) (ht : db.getTable ty.table_name = some t)
    (hid : alookup row "id" = some idv) (hfind : findRow t idv = none) :
    update_row ty db row = (.ok false, db) := by
  unfold update_row
  rw [ht]
  simp only [hid, hfind]

theorem update_row_found (ty : JSONType) (db : DB) (t : Table) (row : Row)
    (idv : JVal) (db_row : Row) (ht : db.getTable ty.table_name = some t)
    (hid : alookup row "id" = some idv) (hfind : findRow t idv = some db_row)
    (hkeys : (updPayload ty db_row row).all (fun p => memStr t.fields p.1) = true) :
    update_row ty db row
      = (.ok true,
         (db.setTable ty.table_name
            { t with rows := t.rows.map (fun r =>
                if alookup r "id" = some idv then
                  updApply t.fields r (updPayload ty db_row row)
                else r) }).pushLog (.updateRec ty.table_name idv)) := by
  unfold update_row
  rw [ht]
  simp only [hid, hfind, hkeys, if_true]

theorem insertRow_ok (ty : JSONType) (db : DB) (t : Table) (row : Row) (idv : JVal)
    (ht : db.getTable ty.table_name = some t)
    (hkeys : row.all (fun p => memStr t.fields p.1) = true)
    (hid : alookup row "id" = some idv) (hidnn : ¬ idv = JVal.null) :
    insertRow ty db row
      = (.ok (),
         (db.setTable ty.table_name
            { t with rows := t.rows ++ [normRow t.fields row] }).pushLog
           (.insertOne ty.table_name row)) := by
  unfold insertRow insertTableRow
  rw [ht]
  simp only [hkeys, hid, if_true, if_neg hidnn]

theorem foldl_aset_null_lookup (cs : List String) (row : Row) (c : String) :
    alookup (cs.foldl (fun r k => aset r k JVal.null) row) c
      = if c ∈ cs then some JVal.null else alookup row c := by
  induction cs generalizing row with
  | nil => simp
  | cons k rest ih =>
    simp only [List.foldl_cons]
    rw [ih]
    by_cases hk : k = c
    · subst hk
      by_cases hm : k ∈ rest
      · simp [hm]
      · simp [hm, alookup_aset_self]
    · by_cases hm : c ∈ rest
      · simp [hm]
      · simp [List.mem_cons, hm, Ne.symm hk, alookup_aset_ne _ _ hk]

theorem updPayload_lookup_full (ty : JSONType) (hrm : ty.remove_missing_fields = true)
    (db_row row : Row) (c : String) :
    alookup (updPayload ty db_row row) c
      = if c ∈ (db_row.map Prod.fst).filter (fun c => (alookup row c).isNone)
        then some JVal.null else alookup row c := by
  unfold updPayload
  rw [if_pos hrm, foldl_aset_null_lookup]

theorem updPayload_keys (ty : JSONType) (db_row row : Row) (k : String)
    (h : k ∈ (updPayload ty db_row row).map Prod.fst) :
    k ∈ row.map Prod.fst ∨ k ∈ db_row.map Prod.fst := by
  unfold updPayload at h
  by_cases hrm : ty.remove_missing_fields = true
  · rw [if_pos hrm] at h
    generalize hcs : (db_row.map Prod.fst).filter (fun c => (alookup row c).isNone) = cs at h
    have hsub : ∀ c ∈ cs, c ∈ db_row.map Prod.fst := by
      intro c hc
      rw [← hcs] at hc
      exact (List.mem_filter.mp hc).1
    clear hcs
    induction cs generalizing row with
    | nil => exact Or.inl h
    | cons c rest ih =>
      simp only [List.foldl_cons] at h
      rcases ih (aset row c JVal.null) h
          (fun x hx => hsub x (List.mem_cons_of_mem _ hx)) with h2 | h2
      · rcases mem_keys_aset h2 with h3 | h3
        · exact Or.inl h3
        · exact Or.inr (h3 ▸ hsub c (List.mem_cons_self _ _))
      · exact Or.inr h2
  · rw [if_neg hrm] at h
    exact Or.inl h

theorem aset_eq_of_lookup {α : Type} {xs : List (String × α)} {k : String} {v : α}
    (h : alookup xs k = some v) : aset xs k v = xs := by
  induction xs with
  | nil => simp [alookup] at h
  | cons p rest ih =>
    rcases p with ⟨k1, v1⟩
    by_cases hk : k1 = k
    · subst hk
      have h2 : v1 = v := by
        simp [alookup] at h
        exact h
      subst h2
      simp [aset]
    · simp only [alookup, if_neg hk] at h
      simp [aset, if_neg hk, ih h]

theorem getTable_setTable_self (db : DB) (tn : String) (t : Table) :
    (db.setTable tn t).getTable tn = some t :=
  alookup_aset_self _ _ _

theorem findRow_eq_none_iff (t : Table) (idv : JVal) (h : ¬ idv = JVal.null) :
    findRow t idv = none ↔ ∀ r ∈ t.rows, ¬ alookup r "id" = some idv := by
  unfold findRow
  rw [if_neg h, List.find?_eq_none]
  constructor
  · intro hx r hr
    intro he
    exact absurd (decide_eq_true he) (by simpa using hx r hr)
  · intro hx r hr
    simpa using hx r hr

theorem findRow_append_last (fs : List String) (rows : List Row) (nr : Row)
    (n : Int) (idv : JVal) (hnn : ¬ idv = JVal.null)
    (hnone : ∀ r ∈ rows, ¬ alookup r "id" = some idv)
    (hmatch : alookup nr "id" = some idv) :
    findRow { fields := fs, rows := rows ++ [nr], nextId := n } idv = some nr := by
  unfold findRow
  rw [if_neg hnn]
  simp only
  induction rows with
  | nil => simp [List.find?, hmatch]
  | cons r rest ih =>
    simp only [List.cons_append, List.find?]
    rw [decide_eq_false (hnone r (List.mem_cons_self _ _))]
    exact ih (fun q hq => hnone q (List.mem_cons_of_mem _ hq))

theorem updApply_self (f : List String) (row : Row) (ty : JSONType)
    (hrm : ty.remove_missing_fields = true) :
    updApply f (normRow f row) (updPayload ty (normRow f row) row) = normRow f row := by
  have hkk : (normRow f row).map Prod.fst = f := normRow_keys f row
  unfold updApply normRow
  unfold normRow at hkk
  apply List.map_congr_left
  intro c hc
  rw [updPayload_lookup_full ty hrm]
  rw [hkk]
  by_cases hrow : (alookup row c) = none
  · rw [if_pos (List.mem_filter.mpr ⟨hc, by simp [hrow]⟩)]
    simp [hrow]
  · rw [if_neg]
    · rcases hx : alookup row c with _ | v
      · exact absurd hx hrow
      · simp [hx]
    · intro hmem
      have h2 := (List.mem_filter.mp hmem).2
      simp only [Option.isNone_iff_eq_none, decide_eq_true_eq] at h2
      exact hrow h2

/- ===================================================================
   C8: idempotence of sync.
   =================================================================== -/

theorem all_keys_memStr {row : Row} {fs : List String}
    (h : ∀ k, k ∈ row.map Prod.fst → memStr fs k = true) :
    row.all (fun p => memStr fs p.1) = true := by
  rw [List.all_eq_true]
  intro p hp
  exact h p.1 (List.mem_map.mpr ⟨p, hp, rfl⟩)

/-- The stored row with the given primary key. -/
def storedById (db : DB) (ty : JSONType) (idv : JVal) : Option Row :=
  match db.getTable ty.table_name with
  | none => none
  | some t => findRow t idv

/-- C8: syncing the same document twice (a document carrying its primary
key, unchanged content, against a type of plain scalar fields and a
consistent table that does not yet hold the key) returns the same row both
times, leaves the same stored row after each call, and the second call is
exactly one update_record — the update path, with no insert and no schema
operation. -/
theorem C8_theorem (fuel : Nat) (env : Env) (reg : JSONRegistry) (ty : JSONType)
    (db : DB) (t0 : Table) (d : Doc) (idv : JVal)
    (hsf : ty.fields.all simpleField = true)
    (hnoid : ∀ f ∈ ty.fields, ¬ f.fieldname = "id" ∧ ¬ f.column_name = "id")
    (hrm : ty.remove_missing_fields = true)
    (hnd : (d.map Prod.fst).Nodup)
    (hid : alookup d "id" = some idv)
    (hidnn : ¬ idv = JVal.null)
    (ht : db.getTable ty.table_name = some t0)
    (hfcols : t0.fields = "id" :: (fields_by_name db ty).map (fun p => p.2.column_name))
    (hrows : ∀ r ∈ t0.rows, r.map Prod.fst = t0.fields)
    (hnew : findRow t0 idv = none) :
    ∃ row srow,
      (ty.sync (fuel + 1) env reg db (.obj d) false).1 = .ok row
      ∧ (ty.sync (fuel + 1) env reg (ty.sync (fuel + 1) env reg db (.obj d) false).2
          (.obj d) false).1 = .ok row
      ∧ (ty.sync (fuel + 1) env reg (ty.sync (fuel + 1) env reg db (.obj d) false).2
          (.obj d) false).2
        = ((ty.sync (fuel + 1) env reg db (.obj d) false).2).pushLog
            (.updateRec ty.table_name idv)
      ∧ storedById ((ty.sync (fuel + 1) env reg db (.obj d) false).2) ty idv = some srow
      ∧ storedById ((ty.sync (fuel + 1) env reg
          (ty.sync (fuel + 1) env reg db (.obj d) false).2 (.obj d) false).2) ty idv
        = some srow := by
  obtain ⟨t1, hcons1, hnext1, hids1, hsup1, hknown1⟩ :=
    extend_consistent db ty t0 d ⟨ht, hfcols, hrows⟩
  obtain ⟨ht1, hf1, hrows1⟩ := hcons1
  obtain ⟨hrowid, hrowkeys⟩ :=
    built_row_facts _ ty t1 d false ⟨ht1, hf1, hrows1⟩ hknown1 hnoid hnd hid hidnn
  have hall1 : (simpleRowFields false d
      (row0Of (ty.fields.map fun f => (f.fieldname, f)) t1.fields d) ty.fields).all
      (fun p => memStr t1.fields p.1) = true := all_keys_memStr hrowkeys
  have hfind1 : findRow t1 idv = none := by
    rw [findRow_eq_none_iff _ _ hidnn]
    intro r hr he
    have hmem : some idv ∈ t1.rows.map (fun r => alookup r "id") :=
      List.mem_map.mpr ⟨r, hr, he⟩
    rw [hids1] at hmem
    rcases List.mem_map.mp hmem with ⟨r0, hr0, he0⟩
    exact ((findRow_eq_none_iff t0 idv hidnn).mp hnew) r0 hr0 he0
  -- name the interesting states and rows
  refine ⟨simpleRowFields false d
      (row0Of (ty.fields.map fun f => (f.fieldname, f)) t1.fields d) ty.fields,
    normRow t1.fields (simpleRowFields false d
      (row0Of (ty.fields.map fun f => (f.fieldname, f)) t1.fields d) ty.fields), ?_⟩
  have H1 : ty.sync (fuel + 1) env reg db (.obj d) false
      = (.ok (simpleRowFields false d
            (row0Of (ty.fields.map fun f => (f.fieldname, f)) t1.fields d) ty.fields),
         ((redefine_with_missing_fields db ty
              (find_extra_types (fields_by_name db ty) [] d)).setTable ty.table_name
            { t1 with rows := t1.rows ++ [normRow t1.fields
                (simpleRowFields false d
                  (row0Of (ty.fields.map fun f => (f.fieldname, f)) t1.fields d)
                  ty.fields)] }).pushLog
           (.insertOne ty.table_name
             (simpleRowFields false d
               (row0Of (ty.fields.map fun f => (f.fieldname, f)) t1.fields d)
               ty.fields))) := by
    show syncC (fuel + 1) env reg ty db
        { data := some d, seq := none, isPartial := false, index := -1,
          parents := [], root := some d } = _
    rw [syncC_succ]
    unfold syncG
    simp only
    rw [create_row_dictG_simple _ _ env reg ty _ _ d t1 hsf rfl ht1]
    simp only
    rw [update_row_not_found ty _ t1 _ idv ht1 hrowid hfind1]
    simp only
    rw [insertRow_ok ty _ t1 _ idv ht1 hall1 hrowid hidnn]
  rw [H1]
  simp only
  set row := simpleRowFields false d
    (row0Of (ty.fields.map fun f => (f.fieldname, f)) t1.fields d) ty.fields with hrowdef
  set db1 := redefine_with_missing_fields db ty
    (find_extra_types (fields_by_name db ty) [] d) with hdb1def
  set t2 : Table := { t1 with rows := t1.rows ++ [normRow t1.fields row] } with ht2def
  set db2 := (db1.setTable ty.table_name t2).pushLog (.insertOne ty.table_name row)
    with hdb2def
  have hget2 : db2.getTable ty.table_name = some t2 := getTable_setTable_self db1 _ t2
  have hfbn2 : fields_by_name db2 ty = fields_by_name db1 ty := fbn_catalog_eq ty rfl
  have hknown2 : ∀ p ∈ d, ¬ p.2 = JVal.null → ¬ p.1 = "id" →
      (alookup (fields_by_name db2 ty) p.1).isSome = true := by
    intro p hp hnn hid2
    rw [hfbn2]
    exact hknown1 p.1 p.2 hp hnn hid2
  have hmiss2 : find_extra_types (fields_by_name db2 ty) [] d = [] :=
    fet_nothing_new _ _ _ hknown2
  have hmatch : alookup (normRow t1.fields row) "id" = some idv := by
    rw [normRow_id t1.fields row (by rw [hf1]; exact List.mem_cons_self _ _)
      ((alookup_isSome_iff row "id").mp (by rw [hrowid]; rfl))]
    exact hrowid
  have hnomatch1 : ∀ r ∈ t1.rows, ¬ alookup r "id" = some idv :=
    (findRow_eq_none_iff t1 idv hidnn).mp hfind1
  have hfind2 : findRow t2 idv = some (normRow t1.fields row) :=
    findRow_append_last t1.fields t1.rows _ t1.nextId idv hidnn hnomatch1 hmatch
  have hpay : (updPayload ty (normRow t1.fields row) row).all
      (fun p => memStr t1.fields p.1) = true := by
    apply all_keys_memStr
    intro k hk
    rcases updPayload_keys ty _ row k hk with h2 | h2
    · exact hrowkeys k h2
    · rw [normRow_keys] at h2
      exact (memStr_iff _ _).mpr h2
  have hmaprows : t2.rows.map (fun r =>
      if alookup r "id" = some idv then
        updApply t2.fields r (updPayload ty (normRow t1.fields row) row)
      else r) = t2.rows := by
    show (t1.rows ++ [normRow t1.fields row]).map _ = t1.rows ++ [normRow t1.fields row]
    rw [List.map_append]
    have hleft : t1.rows.map (fun r =>
        if alookup r "id" = some idv then
          updApply t2.fields r (updPayload ty (normRow t1.fields row) row)
        else r) = t1.rows := by
      have hcong : ∀ r ∈ t1.rows, (if alookup r "id" = some idv then
          updApply t2.fields r (updPayload ty (normRow t1.fields row) row)
          else r) = id r := by
        intro r hr
        rw [if_neg (hnomatch1 r hr)]
        rfl
      rw [List.map_congr_left hcong, List.map_id]
    rw [hleft]
    simp only [List.map_cons, List.map_nil]
    rw [if_pos hmatch]
    have : updApply t2.fields (normRow t1.fields row)
        (updPayload ty (normRow t1.fields row) row) = normRow t1.fields row :=
      updApply_self t1.fields row ty hrm
    rw [this]
  have hsetid : db2.setTable ty.table_name t2 = db2 := by
    show ({ db2 with tables := aset db2.tables ty.table_name t2 } : DB) = db2
    rw [aset_eq_of_lookup hget2]
  have H2 : ty.sync (fuel + 1) env reg db2 (.obj d) false
      = (.ok row, db2.pushLog (.updateRec ty.table_name idv)) := by
    show syncC (fuel + 1) env reg ty db2
        { data := some d, seq := none, isPartial := false, index := -1,
          parents := [], root := some d } = _
    rw [syncC_succ]
    unfold syncG
    simp only
    rw [hmiss2, rwmf_nil]
    rw [create_row_dictG_simple _ _ env reg ty db2 _ d
      ⟨t1.fields, t1.rows ++ [normRow t1.fields row], t1.nextId⟩ hsf rfl hget2]
    simp only
    rw [← hrowdef]
    rw [update_row_found ty db2 t2 row idv (normRow t1.fields row) hget2 hrowid
      hfind2 hpay]
    simp only
    rw [hmaprows]
    show (Except.ok row, (db2.setTable ty.table_name t2).pushLog
      (.updateRec ty.table_name idv)) = _
    rw [hsetid]
  rw [H2]
  refine ⟨trivial, rfl, rfl, ?_, ?_⟩
  · show storedById db2 ty idv = some (normRow t1.fields row)
    unfold storedById
    rw [hget2]
  
    exact hfind2
  · show storedById (db2.pushLog (.updateRec ty.table_name idv)) ty idv
      = some (normRow t1.fields row)
    unfold storedById
    have hget3 : (db2.pushLog (.updateRec ty.table_name idv)).getTable ty.table_name
        = some t2 := hget2
    rw [hget3]
    exact hfind2

/-- Concrete document for the idempotence scenario. -/
def c8doc : Doc := [("id", .int 7), ("name", .str "Bob"), ("age", .int 30)]

/-- Witness for C8: the idempotence theorem applied to `Person` over fresh
storage and the document `{id: 7, name: "Bob", age: 30}`. -/
theorem C8_witness : ∃ row srow,
    (Person.sync 1 env0 personReg personDB (.obj c8doc) false).1 = .ok row
    ∧ (Person.sync 1 env0 personReg
        (Person.sync 1 env0 personReg personDB (.obj c8doc) false).2
        (.obj c8doc) false).1 = .ok row
    ∧ (Person.sync 1 env0 personReg
        (Person.sync 1 env0 personReg personDB (.obj c8doc) false).2
        (.obj c8doc) false).2
      = ((Person.sync 1 env0 personReg personDB (.obj c8doc) false).2).pushLog
          (.updateRec Person.table_name (JVal.int 7))
    ∧ storedById ((Person.sync 1 env0 personReg personDB (.obj c8doc) false).2)
        Person (JVal.int 7) = some srow
    ∧ storedById ((Person.sync 1 env0 personReg
        (Person.sync 1 env0 personReg personDB (.obj c8doc) false).2
        (.obj c8doc) false).2) Person (JVal.int 7) = some srow :=
  C8_theorem 0 env0 personReg Person personDB
    { fields := ["id", "name", "age"], rows := [], nextId := 1 }
    c8doc (JVal.int 7)
    (by decide) (by decide) rfl (by decide) rfl (by decide)
    rfl (by decide) (by decide) rfl

/- ===================================================================
   C4: bulk-sync batching.
   =================================================================== -/

/-- The primary key a document carries (`row_dict['id']`, null when absent). -/
def idOf (d : Doc) : JVal := (alookup d "id").getD .null

/-- The row `_create_row_dict` builds for a document of a plain scalar
type over a table with columns `F` (no computed, reference or temporal
fields; full, non-partial context). -/
def builtRow (ty : JSONType) (F : List String) (d : Doc) : Row :=
  simpleRowFields false d
    (row0Of (ty.fields.map (fun f => (f.fieldname, f))) F d) ty.fields

theorem create_row_dictG_builtRow
    (syncF : JSONType → DB → Context → Except SyncErr Row × DB)
    (bulkF : JSONType → DB → Context → Except SyncErr (List Row) × DB)
    (env : Env) (reg : JSONRegistry) (ty : JSONType) (db : DB) (ctx : Context)
    (d : Doc) (t : Table) (F : List String)
    (hsf : ty.fields.all simpleField = true) (hd : ctx.data = some d)
    (hp : ctx.isPartial = false)
    (ht : db.getTable ty.table_name = some t) (htf : t.fields = F) :
    create_row_dictG syncF bulkF env reg ty db ctx = (.ok (builtRow ty F d), db) := by
  rw [create_row_dictG_simple syncF bulkF env reg ty db ctx d t hsf hd ht, hp, htf]
  rfl

theorem findRow_eq_some {t : Table} {idv : JVal} {r : Row}
    (h : findRow t idv = some r) : r ∈ t.rows ∧ alookup r "id" = some idv := by
  unfold findRow at h
  by_cases hn : idv = JVal.null
  · rw [if_pos hn] at h
    simp at h
  · rw [if_neg hn] at h
    refine ⟨List.mem_of_find?_eq_some h, ?_⟩
    have h2 := List.find?_some h
    simpa using h2

theorem findRow_isSome_congr (t2 t : Table) (v : JVal)
    (h : t2.rows.map (fun r => alookup r "id") = t.rows.map (fun r => alookup r "id")) :
    (findRow t2 v).isSome = (findRow t v).isSome := by
  unfold findRow
  by_cases hn : v = JVal.null
  · rw [if_pos hn, if_pos hn]
  · rw [if_neg hn, if_neg hn]
    have key : ∀ (l l2 : List Row),
        l2.map (fun r => alookup r "id") = l.map (fun r => alookup r "id") →
        (l2.find? (fun r => decide (alookup r "id" = some v))).isSome
          = (l.find? (fun r => decide (alookup r "id" = some v))).isSome := by
      intro l l2 hh
      induction l2 generalizing l with
      | nil =>
        cases l with
        | nil => rfl
        | cons b bs => simp at hh
      | cons a as ih =>
        cases l with
        | nil => simp at hh
        | cons b bs =>
          simp only [List.map_cons, List.cons.injEq] at hh
          obtain ⟨h1, h2⟩ := hh
          simp only [List.find?]
          rw [h1]
          cases hdec : decide (alookup b "id" = some v) with
          | false => exact ih bs h2
          | true => rfl
    exact key t.rows t2.rows h

theorem updApply_keys (cols : List String) (r payload : Row) :
    (updApply cols r payload).map Prod.fst = cols := by
  unfold updApply
  rw [List.map_map]
  have hcong : ∀ c ∈ cols, (Prod.fst ∘ fun c => ((c : String),
      match alookup payload c with
      | some v => v
      | none => (alookup r c).getD JVal.null)) c = id c := by
    intro c _
    rfl
  rw [List.map_congr_left hcong, List.map_id]

theorem updApply_lookup_mem (cols : List String) (r payload : Row) (c : String)
    (hc : c ∈ cols) :
    alookup (updApply cols r payload) c
      = some (match alookup payload c with
              | some v => v
              | none => (alookup r c).getD .null) := by
  induction cols with
  | nil => cases hc
  | cons k rest ih =>
    simp only [updApply, List.map_cons, alookup]
    by_cases hk : k = c
    · rw [if_pos hk]
      rw [hk]
    · rw [if_neg hk]
      rcases List.mem_cons.mp hc with h | h
    
      · exact absurd h.symm hk
      · exact ih h

theorem updPayload_id (ty : JSONType) (db_row row : Row) (idv : JVal)
    (hid : alookup row "id" = some idv) :
    alookup (updPayload ty db_row row) "id" = some idv := by
  by_cases hrm : ty.remove_missing_fields = true
  · have hnm : "id" ∉ (db_row.map Prod.fst).filter
        (fun c => (alookup row c).isNone) := by
      intro hmem
      have h2 := (List.mem_filter.mp hmem).2
      rw [hid] at h2
      simp at h2
    rw [updPayload_lookup_full ty hrm, if_neg hnm]
    exact hid
  · unfold updPayload
    rw [if_neg hrm]
    exact hid

theorem update_step_found (ty : JSONType) (db : DB) (t : Table) (row : Row)
    (idv : JVal) (db_row : Row)
    (ht : db.getTable ty.table_name = some t)
    (hidf : "id" ∈ t.fields)
    (htrows : ∀ r ∈ t.rows, r.map Prod.fst = t.fields)
    (hrowid : alookup row "id" = some idv)
    (hrowkeys : ∀ k, k ∈ row.map Prod.fst → memStr t.fields k = true)
    (hfind : findRow t idv = some db_row) :
    ∃ t2, update_row ty db row
        = (.ok true, (db.setTable ty.table_name t2).pushLog
            (.updateRec ty.table_name idv))
      ∧ t2.fields = t.fields
      ∧ (∀ r ∈ t2.rows, r.map Prod.fst = t.fields)
      ∧ t2.rows.map (fun r => alookup r "id")
          = t.rows.map (fun r => alookup r "id") := by
  obtain ⟨hmem, hdbid⟩ := findRow_eq_some hfind
  have hpay : (updPayload ty db_row row).all (fun p => memStr t.fields p.1) = true := by
    apply all_keys_memStr
    intro k hk
    rcases updPayload_keys ty db_row row k hk with h2 | h2
    · exact hrowkeys k h2
    · rw [htrows db_row hmem] at h2
      exact (memStr_iff _ _).mpr h2
  refine ⟨{ t with rows := t.rows.map (fun r =>
      if alookup r "id" = some idv then
        updApply t.fields r (updPayload ty db_row row)
      else r) },
    update_row_found ty db t row idv db_row ht hrowid hfind hpay, rfl, ?_, ?_⟩
  · intro r hr
    rcases List.mem_map.mp hr with ⟨r0, hr0, he⟩
    by_cases hm : alookup r0 "id" = some idv
    · rw [if_pos hm] at he
      rw [← he, updApply_keys]
    · rw [if_neg hm] at he
      rw [← he]
      exact htrows r0 hr0
  · show (t.rows.map _).map (fun r => alookup r "id") = _
    rw [List.map_map]
    apply List.map_congr_left
    intro r0 hr0
    show alookup (if alookup r0 "id" = some idv then
        updApply t.fields r0 (updPayload ty db_row row) else r0) "id"
      = alookup r0 "id"
    by_cases hm : alookup r0 "id" = some idv
    · rw [if_pos hm, updApply_lookup_mem t.fields r0 _ "id" hidf,
        updPayload_id ty db_row row idv hrowid, hm]
    · rw [if_neg hm]

/-- The `_bulk_sync` per-document loop on a plain scalar type, over any
already-extended state: every document is built into its row; documents
whose primary key is stored take the update path (one `updateRec` each, in
order), the others are queued in order; the table keeps its columns and
its stored primary keys. -/
theorem bulkLoop_char (fuel : Nat) (env : Env) (reg : JSONRegistry)
    (ty : JSONType) (db0 : DB) (t0 : Table)
    (hsf : ty.fields.all simpleField = true)
    (hnoid : ∀ f ∈ ty.fields, ¬ f.fieldname = "id" ∧ ¬ f.column_name = "id")
    (hfcols0 : t0.fields
      = "id" :: (fields_by_name db0 ty).map (fun p => p.2.column_name)) :
    ∀ (docs : List Doc) (db : DB) (t : Table) (ctx : Context) (i : Int)
      (acc queue : List Row),
      ctx.isPartial = false →
      db.catalog = db0.catalog →
      db.getTable ty.table_name = some t →
      t.fields = t0.fields →
      (∀ r ∈ t.rows, r.map Prod.fst = t.fields) →
      t.rows.map (fun r => alookup r "id") = t0.rows.map (fun r => alookup r "id") →
      (∀ d ∈ docs, (d.map Prod.fst).Nodup
        ∧ alookup d "id" = some (idOf d)
        ∧ ¬ idOf d = JVal.null
        ∧ ∀ p ∈ d, ¬ p.2 = JVal.null → ¬ p.1 = "id" →
            (alookup (fields_by_name db0 ty) p.1).isSome = true) →
      ∃ dbF tF,
        bulkLoopG (syncC fuel env reg) (bulk_syncC fuel env reg) env reg ty db ctx i
            acc queue (docs.map JVal.obj)
          = (.ok (acc ++ docs.map (builtRow ty t0.fields),
                  queue ++ (docs.filter (fun d =>
                    !(findRow t0 (idOf d)).isSome)).map (builtRow ty t0.fields)), dbF)
        ∧ dbF.catalog = db0.catalog
        ∧ dbF.getTable ty.table_name = some tF
        ∧ tF.fields = t0.fields
        ∧ (∀ r ∈ tF.rows, r.map Prod.fst = tF.fields)
        ∧ tF.rows.map (fun r => alookup r "id")
            = t0.rows.map (fun r => alookup r "id")
        ∧ dbF.log = db.log
            ++ (docs.filter (fun d => (findRow t0 (idOf d)).isSome)).map
                (fun d => DbOp.updateRec ty.table_name (idOf d)) := by
  intro docs
  induction docs with
  | nil =>
    intro db t ctx i acc queue hp hcat ht htf htrows hids hdocs
    refine ⟨db, t, by simp [bulkLoopG], hcat, ht, htf, htrows, hids, by simp⟩
  | cons d rest ih =>
    intro db t ctx i acc queue hp hcat ht htf htrows hids hdocs
    obtain ⟨hnd, hid, hidnn, hknown0⟩ := hdocs d (List.mem_cons_self _ _)
    have hdocs' := fun d2 h2 => hdocs d2 (List.mem_cons_of_mem _ h2)
    have hfbn : fields_by_name db ty = fields_by_name db0 ty := fbn_catalog_eq ty hcat
    have hcons : tableConsistent db ty t := ⟨ht, by rw [htf, hfcols0, hfbn], htrows⟩
    have hknown : ∀ k v, (k, v) ∈ d → ¬ v = JVal.null → ¬ k = "id" →
        (alookup (fields_by_name db ty) k).isSome = true := by
      intro k v hm hnn hk
      rw [hfbn]
      exact hknown0 (k, v) hm hnn hk
    obtain ⟨hbid, hbkeys⟩ :=
      built_row_facts db ty t d false hcons hknown hnoid hnd hid hidnn
    have hbid2 : alookup (builtRow ty t.fields d) "id" = some (idOf d) := hbid
    have hbkeys2 : ∀ k, k ∈ (builtRow ty t.fields d).map Prod.fst →
        memStr t.fields k = true := hbkeys
    rw [htf] at hbid2 hbkeys2
    simp only [List.map_cons, bulkLoopG]
    rw [create_row_dictG_builtRow (syncC fuel env reg) (bulk_syncC fuel env reg)
      env reg ty db { ctx with index := i, data := some d } d t t0.fields
      hsf rfl hp ht htf]
    simp only
    cases hfd : findRow t (idOf d) with
    | none =>
      have hmem0 : (findRow t0 (idOf d)).isSome = false := by
        rw [← findRow_isSome_congr t t0 (idOf d) hids, hfd]
        rfl
      have hnone0 : findRow t0 (idOf d) = none := by
        cases hx : findRow t0 (idOf d) with
        | none => rfl
        | some r => rw [hx] at hmem0; simp at hmem0
      rw [update_row_not_found ty db t (builtRow ty t0.fields d) (idOf d) ht hbid2 hfd]
      simp only
      obtain ⟨dbF, tF, hloop, hc1, hc2, hc3, hc4, hc5, hc6⟩ :=
        ih db t { ctx with index := i, data := some d } (i + 1)
          (acc ++ [builtRow ty t0.fields d]) (queue ++ [builtRow ty t0.fields d])
          hp hcat ht htf htrows hids hdocs'
      refine ⟨dbF, tF, ?_, hc1, hc2, hc3, hc4, hc5, ?_⟩
      · rw [hloop]
        simp [List.filter_cons, hmem0, hnone0, List.append_assoc]
      · rw [hc6]
        simp [List.filter_cons, hmem0, hnone0]
    | some db_row =>
      have hmem1 : (findRow t0 (idOf d)).isSome = true := by
        rw [← findRow_isSome_congr t t0 (idOf d) hids, hfd]
        rfl
      have hne1 : ¬ findRow t0 (idOf d) = none := by
        intro hx
        rw [hx] at hmem1
        simp at hmem1
      obtain ⟨t2, hupd, ht2f, ht2rows, ht2ids⟩ :=
        update_step_found ty db t (builtRow ty t0.fields d) (idOf d) db_row ht
          (by rw [htf, hfcols0]; exact List.mem_cons_self _ _)
          htrows hbid2 (fun k hk => by rw [htf]; exact hbkeys2 k hk) hfd
      rw [hupd]
      simp only
      obtain ⟨dbF, tF, hloop, hc1, hc2, hc3, hc4, hc5, hc6⟩ :=
        ih ((db.setTable ty.table_name t2).pushLog
            (.updateRec ty.table_name (idOf d)))
          t2 { ctx with index := i, data := some d } (i + 1)
          (acc ++ [builtRow ty t0.fields d]) queue
          hp hcat (getTable_setTable_self db _ t2) (ht2f.trans htf)
          (fun r hr => (ht2rows r hr).trans ht2f.symm)
          (ht2ids.trans hids) hdocs'
      refine ⟨dbF, tF, ?_, hc1, hc2, hc3, hc4, hc5, ?_⟩
      · rw [hloop]
        simp [List.filter_cons, hmem1, hne1, List.append_assoc]
      · rw [hc6]
        simp [List.filter_cons, hmem1, hne1, DB.pushLog, DB.setTable,
          List.append_assoc]

/-- When every non-null non-id key of every document in the batch is
already known, the bulk discovery pass finds nothing. -/
theorem fet_bulk_nothing_new (cf : List (String × JSONField)) (docs : List Doc)
    (m : List (String × List PyType))
    (hall : ∀ d ∈ docs, ∀ p ∈ d, ¬ p.2 = JVal.null → ¬ p.1 = "id" →
      (alookup cf p.1).isSome = true) :
    find_extra_types_bulk cf m (docs.map JVal.obj) = .ok m := by
  induction docs generalizing m with
  | nil => rfl
  | cons d rest ih =>
    simp only [List.map_cons, find_extra_types_bulk]
    rw [fet_nothing_new cf d m (hall d (List.mem_cons_self _ _))]
    exact ih m (fun d2 h2 => hall d2 (List.mem_cons_of_mem _ h2))

/-- Inserting rows whose keys are all table columns never fails and keeps
the columns. -/
theorem foldlM_insert_ok (rows : List Row) :
    ∀ t : Table,
      (∀ r ∈ rows, r.all (fun p => memStr t.fields p.1) = true) →
      ∃ t2, rows.foldlM insertTableRow t = .ok t2 ∧ t2.fields = t.fields := by
  induction rows with
  | nil =>
    intro t _
    exact ⟨t, rfl, rfl⟩
  | cons r rest ih =>
    intro t hall
    have h1 : ∃ t1, insertTableRow t r = .ok t1 ∧ t1.fields = t.fields := by
      unfold insertTableRow
      rw [if_pos (hall r (List.mem_cons_self _ _))]
      rcases hx : alookup r "id" with _ | v
      · exact ⟨_, rfl, rfl⟩
      · simp only
        by_cases hv : v = JVal.null
        · rw [if_pos hv]
          exact ⟨_, rfl, rfl⟩
        · rw [if_neg hv]
          exact ⟨_, rfl, rfl⟩
    obtain ⟨t1, he, hf⟩ := h1
    have hall1 : ∀ q ∈ rest, q.all (fun p => memStr t1.fields p.1) = true := by
      intro q hq
      rw [hf]
      exact hall q (List.mem_cons_of_mem _ hq)
    obtain ⟨t2, he2, hf2⟩ := ih t1 hall1
    refine ⟨t2, ?_, hf2.trans hf⟩
    rw [List.foldlM_cons, he]
    exact he2

/-- `bulk_insert` of well-formed rows: one storage call, one log entry. -/
theorem bulk_insert_rows_ok (ty : JSONType) (db : DB) (t : Table) (rows : List Row)
    (ht : db.getTable ty.table_name = some t)
    (hall : ∀ r ∈ rows, r.all (fun p => memStr t.fields p.1) = true) :
    ∃ t2, rows.foldlM insertTableRow t = .ok t2
      ∧ bulk_insert_rows ty db rows
        = (.ok (), (db.setTable ty.table_name t2).pushLog
            (.bulkIns ty.table_name rows)) := by
  obtain ⟨t2, he, _⟩ := foldlM_insert_ok rows t hall
  refine ⟨t2, he, ?_⟩
  unfold bulk_insert_rows
  rw [ht]
  simp only
  rw [he]

/-- C4 (counterexample): bulk-syncing one document that holds no `id` key
(so M = 0 of the N = 1 documents exist in storage by primary key) does not
end in a bulk insert carrying that document: the update attempt evaluates
`row_dict['id']`, the call fails with KeyError, and the state is returned
untouched — no update, no bulk insert, no row stored. -/
theorem C4_counterexample :
    Person.bulk_sync 9 env0 personReg personDB [.obj [("name", .str "x")]] false
      = (.error (.keyError "id"), personDB) :=
  rfl

/-- C4 (amended): over a consistent table, bulk-syncing N documents that
each carry a non-null `id` and no unknown fields builds all N rows; the M
documents whose id is already stored each take one `update_record` call,
in input order; the remaining N−M built rows are carried by one single
`bulk_insert` call, in input order, issued only when N−M > 0; and all N
built rows are returned in input order. -/
theorem C4_amended (fuel : Nat) (env : Env) (reg : JSONRegistry) (ty : JSONType)
    (db : DB) (t0 : Table) (docs : List Doc)
    (hsf : ty.fields.all simpleField = true)
    (hnoid : ∀ f ∈ ty.fields, ¬ f.fieldname = "id" ∧ ¬ f.column_name = "id")
    (ht : db.getTable ty.table_name = some t0)
    (hfcols : t0.fields
      = "id" :: (fields_by_name db ty).map (fun p => p.2.column_name))
    (hrows : ∀ r ∈ t0.rows, r.map Prod.fst = t0.fields)
    (hdocs : ∀ d ∈ docs, (d.map Prod.fst).Nodup
      ∧ alookup d "id" = some (idOf d)
      ∧ ¬ idOf d = JVal.null
      ∧ ∀ p ∈ d, ¬ p.2 = JVal.null → ¬ p.1 = "id" →
          (alookup (fields_by_name db ty) p.1).isSome = true) :
    ∃ dbF,
      ty.bulk_sync (fuel + 1) env reg db (docs.map JVal.obj) false
        = (.ok (docs.map (builtRow ty t0.fields)), dbF)
      ∧ dbF.log = db.log
          ++ (docs.filter (fun d => (findRow t0 (idOf d)).isSome)).map
              (fun d => DbOp.updateRec ty.table_name (idOf d))
          ++ (match (docs.filter (fun d => !(findRow t0 (idOf d)).isSome)).map
                (builtRow ty t0.fields) with
              | [] => ([] : List DbOp)
              | q => [DbOp.bulkIns ty.table_name q]) := by
  have hknownAll : ∀ d ∈ docs, ∀ p ∈ d, ¬ p.2 = JVal.null → ¬ p.1 = "id" →
      (alookup (fields_by_name db ty) p.1).isSome = true :=
    fun d hd => (hdocs d hd).2.2.2
  obtain ⟨db2, tF, hloop, hc1, hc2, hc3, hc4, hc5, hc6⟩ :=
    bulkLoop_char fuel env reg ty db t0 hsf hnoid hfcols docs db t0
      { data := none, seq := some (docs.map JVal.obj), isPartial := false,
        index := -1, parents := [], root := none } 0 [] []
      rfl rfl ht rfl hrows rfl hdocs
  simp only [List.nil_append] at hloop
  rcases hq : (docs.filter (fun d => !(findRow t0 (idOf d)).isSome)).map
      (builtRow ty t0.fields) with _ | ⟨r, q⟩
  · refine ⟨db2, ?_, ?_⟩
    · show bulk_syncC (fuel + 1) env reg ty db _ = _
      rw [bulk_syncC_succ]
      unfold bulk_syncG
      simp only
      rw [fet_bulk_nothing_new (fields_by_name db ty) docs [] hknownAll]
      simp only
      rw [rwmf_nil, hloop, hq]
    · rw [hc6]
      simp
  · have hkeysAll : ∀ d ∈ docs,
        (builtRow ty t0.fields d).all (fun p => memStr t0.fields p.1) = true := by
      intro d hd
      obtain ⟨hnd, hid, hidnn, hknown0⟩ := hdocs d hd
      obtain ⟨_, hbkeys⟩ := built_row_facts db ty t0 d false ⟨ht, hfcols, hrows⟩
        (fun k v hm hnn hk => hknown0 (k, v) hm hnn hk) hnoid hnd hid hidnn
      exact all_keys_memStr hbkeys
    have hallq : ∀ r2 ∈ r :: q, r2.all (fun p => memStr tF.fields p.1) = true := by
      intro r2 hr2
      rw [← hq] at hr2
      rcases List.mem_map.mp hr2 with ⟨d2, hd2, he⟩
      rw [← he, hc3]
      exact hkeysAll d2 (List.mem_filter.mp hd2).1
    obtain ⟨t3, _, hbi⟩ := bulk_insert_rows_ok ty db2 tF (r :: q) hc2 hallq
    refine ⟨(db2.setTable ty.table_name t3).pushLog
      (.bulkIns ty.table_name (r :: q)), ?_, ?_⟩
    · show bulk_syncC (fuel + 1) env reg ty db _ = _
      rw [bulk_syncC_succ]
      unfold bulk_syncG
      simp only
      rw [fet_bulk_nothing_new (fields_by_name db ty) docs [] hknownAll]
      simp only
      rw [rwmf_nil, hloop, hq]
      simp only
      rw [hbi]
    · show ((db2.setTable ty.table_name t3).pushLog _).log = _
      simp [DB.pushLog, DB.setTable, hc6, List.append_assoc]

/-- Documents for the bulk-batching scenario: id 1 exists in storage
(`personDB2`), id 9 does not. -/
def c4docs : List Doc :=
  [[("id", .int 1), ("name", .str "A"), ("age", .int 21)],
   [("id", .int 9), ("name", .str "B"), ("age", .int 22)]]

/-- The stored `person` table of `personDB2`. -/
def c4t0 : Table :=
  { fields := ["id", "name", "age"],
    rows := [[("id", .int 1), ("name", .str "Ann"), ("age", .int 30)]],
    nextId := 2 }

/-- Witness for C4: N = 2 documents, M = 1 already stored — one update
for id 1, one bulk insert carrying the one remaining built row. -/
theorem C4_witness : ∃ dbF,
    Person.bulk_sync 1 env0 personReg personDB2 (c4docs.map JVal.obj) false
      = (.ok (c4docs.map (builtRow Person c4t0.fields)), dbF)
    ∧ dbF.log = personDB2.log
        ++ (c4docs.filter (fun d => (findRow c4t0 (idOf d)).isSome)).map
            (fun d => DbOp.updateRec Person.table_name (idOf d))
        ++ (match (c4docs.filter (fun d => !(findRow c4t0 (idOf d)).isSome)).map
              (builtRow Person c4t0.fields) with
            | [] => ([] : List DbOp)
            | q => [DbOp.bulkIns Person.table_name q]) :=
  C4_amended 0 env0 personReg Person personDB2 c4t0 c4docs
    (by decide) (by decide) rfl (by decide) (by decide) (by decide)

/- ===================================================================
   C9: catalog monotonicity and uniqueness.
   =================================================================== -/

/-- The (Type, fieldname) keys of the Known-Fields Catalog. -/
def catKeys (db : DB) : List (String × String) :=
  db.catalog.map (fun e => (e.type, e.fieldname))

/-- What any engine step is allowed to do to the catalog: append entries
(never edit or remove), keeping one entry per (type, fieldname). -/
def catExt (db db2 : DB) : Prop :=
  (∃ ext, db2.catalog = db.catalog ++ ext)
  ∧ ((catKeys db).Nodup → (catKeys db2).Nodup)

theorem catExt_refl (db : DB) : catExt db db :=
  ⟨⟨[], by simp⟩, fun h => h⟩

theorem catExt_trans {a b c : DB} (h1 : catExt a b) (h2 : catExt b c) :
    catExt a c := by
  obtain ⟨⟨e1, he1⟩, hn1⟩ := h1
  obtain ⟨⟨e2, he2⟩, hn2⟩ := h2
  exact ⟨⟨e1 ++ e2, by rw [he2, he1, List.append_assoc]⟩, fun h => hn2 (hn1 h)⟩

theorem catExt_of_eq {a b : DB} (h : b.catalog = a.catalog) : catExt a b :=
  ⟨⟨[], by rw [h, List.append_nil]⟩, fun hn => by
    unfold catKeys
    rw [h]
    exact hn⟩

theorem update_row_catalog (ty : JSONType) (db : DB) (row : Row) :
    (update_row ty db row).2.catalog = db.catalog := by
  unfold update_row
  repeat' split
  all_goals try rfl
  all_goals simp only
  all_goals split <;> rfl

theorem insertRow_catalog (ty : JSONType) (db : DB) (row : Row) :
    (insertRow ty db row).2.catalog = db.catalog := by
  unfold insertRow
  repeat' split
  all_goals rfl

theorem bulk_insert_rows_catalog (ty : JSONType) (db : DB) (rows : List Row) :
    (bulk_insert_rows ty db rows).2.catalog = db.catalog := by
  unfold bulk_insert_rows
  repeat' split
  all_goals rfl

theorem rwmf_catalog (db : DB) (ty : JSONType)
    (missing : List (String × List PyType)) :
    (redefine_with_missing_fields db ty missing).catalog
      = db.catalog ++ missingEntries ty missing := by
  cases missing with
  | nil => simp [rwmf_nil, missingEntries]
  | cons p ms => rw [rwmf_eq, redefine_catalog]

/-- Extending the schema with fresh, pairwise-distinct fieldnames appends
to the catalog and keeps the one-entry-per-(type, fieldname) invariant. -/
theorem rwmf_catExt (db : DB) (ty : JSONType)
    (missing : List (String × List PyType))
    (hfresh : ∀ p ∈ missing, fetKeyOk (fields_by_name db ty) p)
    (hnd : (missing.map Prod.fst).Nodup) :
    catExt db (redefine_with_missing_fields db ty missing) := by
  refine ⟨⟨missingEntries ty missing, rwmf_catalog db ty missing⟩, ?_⟩
  intro h0
  unfold catKeys
  rw [rwmf_catalog, List.map_append, List.nodup_append]
  refine ⟨h0, ?_, ?_⟩
  · have hmk : (missingEntries ty missing).map (fun e => (e.type, e.fieldname))
        = (missing.map Prod.fst).map (fun k => (ty.name, k)) := by
      simp [missingEntries, List.map_map, Function.comp]
    rw [hmk]
    exact hnd.map (fun a b hab => by
      simpa using congrArg Prod.snd hab)
  · intro a ha hb
    rcases List.mem_map.mp ha with ⟨e, he, hae⟩
    rcases List.mem_map.mp hb with ⟨e2, he2, hae2⟩
    rcases List.mem_map.mp he2 with ⟨p, hp, hpe⟩
    have hpair : (e.type, e.fieldname) = (ty.name, p.1) := by
      rw [hae, ← hae2, ← hpe]
    have htype : e.type = ty.name := congrArg Prod.fst hpair
    have hfn : e.fieldname = p.1 := congrArg Prod.snd hpair
    have hk := fbn_catalog_isSome db ty he htype
    rw [hfn, (hfresh p hp).1] at hk
    simp at hk

theorem catExt_snd_eq {α : Type} {db db2 : DB} {X : α × DB} {res : α}
    (hX : catExt db X.2) (h : X = (res, db2)) : catExt db db2 := by
  rw [h] at hX
  exact hX

theorem processFieldG_catExt
    (syncF : JSONType → DB → Context → Except SyncErr Row × DB)
    (bulkF : JSONType → DB → Context → Except SyncErr (List Row) × DB)
    (env : Env) (reg : JSONRegistry)
    (hs : ∀ ty2 db2 ctx2, catExt db2 (syncF ty2 db2 ctx2).2)
    (hb : ∀ ty2 db2 ctx2, catExt db2 (bulkF ty2 db2 ctx2).2)
    (ty : JSONType) (db : DB) (ctx : Context) (row : Row) (f : JSONField) :
    catExt db (processFieldG syncF bulkF env reg ty db ctx row f).2 := by
  unfold processFieldG
  repeat' split
  all_goals try exact catExt_refl db
  all_goals simp only
  all_goals repeat' split
  all_goals try exact catExt_refl db
  all_goals simp only
  all_goals repeat' split
  all_goals try exact catExt_refl db
  · rename_i heq
    exact catExt_snd_eq (hs _ db _) heq
  · rename_i heq h2 h3
    exact catExt_snd_eq (hs _ db _) heq
  · rename_i heq h2 h3 h4 h5 h6 h7
    exact catExt_snd_eq (hs _ db _) heq
  · rename_i heq h2 h3 h4 h5 h6 h7
    exact catExt_snd_eq (hs _ db _) heq
  · rename_i heq
    exact catExt_snd_eq (hb _ db _) heq
  · rename_i heq h2 h3 h4
    exact catExt_snd_eq (hb _ db _) heq
  · rename_i heq h2 h3 h4
    exact catExt_snd_eq (hb _ db _) heq

theorem processFieldsG_catExt
    (syncF : JSONType → DB → Context → Except SyncErr Row × DB)
    (bulkF : JSONType → DB → Context → Except SyncErr (List Row) × DB)
    (env : Env) (reg : JSONRegistry)
    (hs : ∀ ty2 db2 ctx2, catExt db2 (syncF ty2 db2 ctx2).2)
    (hb : ∀ ty2 db2 ctx2, catExt db2 (bulkF ty2 db2 ctx2).2) :
    ∀ (fs : List JSONField) (ty : JSONType) (db : DB) (ctx : Context) (row : Row),
      catExt db (processFieldsG syncF bulkF env reg ty db ctx row fs).2 := by
  intro fs
  induction fs with
  | nil =>
    intro ty db ctx row
    exact catExt_refl db
  | cons f rest ih =>
    intro ty db ctx row
    simp only [processFieldsG]
    rcases hcall : processFieldG syncF bulkF env reg ty db ctx row f with ⟨res, db2⟩
    have h1 : catExt db db2 :=
      catExt_snd_eq (processFieldG_catExt syncF bulkF env reg hs hb ty db ctx row f)
        hcall
    cases res with
    | error e => exact h1
    | ok rowNext => exact catExt_trans h1 (ih ty db2 ctx rowNext)

theorem create_row_dictG_catExt
    (syncF : JSONType → DB → Context → Except SyncErr Row × DB)
    (bulkF : JSONType → DB → Context → Except SyncErr (List Row) × DB)
    (env : Env) (reg : JSONRegistry)
    (hs : ∀ ty2 db2 ctx2, catExt db2 (syncF ty2 db2 ctx2).2)
    (hb : ∀ ty2 db2 ctx2, catExt db2 (bulkF ty2 db2 ctx2).2)
    (ty : JSONType) (db : DB) (ctx : Context) :
    catExt db (create_row_dictG syncF bulkF env reg ty db ctx).2 := by
  unfold create_row_dictG
  cases hd : ctx.data with
  | none => exact catExt_refl db
  | some data =>
    cases ht : db.getTable ty.table_name with
    | none => exact catExt_refl db
    | some t =>
      simp only
      exact processFieldsG_catExt syncF bulkF env reg hs hb ty.fields ty db ctx _

theorem syncG_catExt
    (syncF : JSONType → DB → Context → Except SyncErr Row × DB)
    (bulkF : JSONType → DB → Context → Except SyncErr (List Row) × DB)
    (env : Env) (reg : JSONRegistry)
    (hs : ∀ ty2 db2 ctx2, catExt db2 (syncF ty2 db2 ctx2).2)
    (hb : ∀ ty2 db2 ctx2, catExt db2 (bulkF ty2 db2 ctx2).2)
    (ty : JSONType) (db : DB) (ctx : Context) :
    catExt db (syncG syncF bulkF env reg ty db ctx).2 := by
  unfold syncG
  cases hd : ctx.data with
  | none => exact catExt_refl db
  | some data =>
    simp only
    have hinv := fet_inv (fields_by_name db ty) data [] (by simp) (by simp)
    have h1 : catExt db (redefine_with_missing_fields db ty
        (find_extra_types (fields_by_name db ty) [] data)) :=
      rwmf_catExt db ty _ hinv.1 hinv.2
    rcases hcr : create_row_dictG syncF bulkF env reg ty
        (redefine_with_missing_fields db ty
          (find_extra_types (fields_by_name db ty) [] data)) ctx with ⟨res, db2⟩
    have h2 : catExt db db2 := catExt_trans h1
      (catExt_snd_eq (create_row_dictG_catExt syncF bulkF env reg hs hb ty _ ctx) hcr)
    cases res with
    | error e => exact h2
    | ok row_dict =>
      simp only
      rcases hup : update_row ty db2 row_dict with ⟨res2, db3⟩
      have h3 : catExt db db3 := catExt_trans h2 (catExt_of_eq (by
        have := update_row_catalog ty db2 row_dict
        rw [hup] at this
        exact this))
      cases res2 with
      | error e => exact h3
      | ok b =>
        cases b with
        | true => exact h3
        | false =>
          simp only
          rcases hins : insertRow ty db3 row_dict with ⟨res3, db4⟩
          have h4 : catExt db db4 := catExt_trans h3 (catExt_of_eq (by
            have := insertRow_catalog ty db3 row_dict
            rw [hins] at this
            exact this))
          cases res3 with
          | error e => exact h4
          | ok u => exact h4

theorem bulkLoopG_catExt
    (syncF : JSONType → DB → Context → Except SyncErr Row × DB)
    (bulkF : JSONType → DB → Context → Except SyncErr (List Row) × DB)
    (env : Env) (reg : JSONRegistry)
    (hs : ∀ ty2 db2 ctx2, catExt db2 (syncF ty2 db2 ctx2).2)
    (hb : ∀ ty2 db2 ctx2, catExt db2 (bulkF ty2 db2 ctx2).2) :
    ∀ (objs : List JVal) (ty : JSONType) (db : DB) (ctx : Context) (i : Int)
      (acc queue : List Row),
      catExt db (bulkLoopG syncF bulkF env reg ty db ctx i acc queue objs).2 := by
  intro objs
  induction objs with
  | nil =>
    intro ty db ctx i acc queue
    exact catExt_refl db
  | cons obj rest ih =>
    intro ty db ctx i acc queue
    simp only [bulkLoopG]
    cases obj with
    | obj fs =>
      simp only
      rcases hcr : create_row_dictG syncF bulkF env reg ty db
          { ctx with index := i, data := some fs } with ⟨res, db2⟩
      have h1 : catExt db db2 :=
        catExt_snd_eq (create_row_dictG_catExt syncF bulkF env reg hs hb ty db _) hcr
      cases res with
      | error e => exact h1
      | ok row =>
        simp only
        rcases hup : update_row ty db2 row with ⟨res2, db3⟩
        have h2 : catExt db db3 := catExt_trans h1 (catExt_of_eq (by
          have := update_row_catalog ty db2 row
          rw [hup] at this
          exact this))
        cases res2 with
        | error e => exact h2
        | ok b =>
          cases b with
          | true => exact catExt_trans h2 (ih ty db3 _ (i + 1) (acc ++ [row]) queue)
          | false =>
            exact catExt_trans h2
              (ih ty db3 _ (i + 1) (acc ++ [row]) (queue ++ [row]))
    | null => exact catExt_refl db
    | bool b => exact catExt_refl db
    | int n => exact catExt_refl db
    | float q => exact catExt_refl db
    | str s => exact catExt_refl db
    | list xs => exact catExt_refl db
    | pydatetime p => exact catExt_refl db
    | pydate p => exact catExt_refl db
    | pytime p => exact catExt_refl db

/-- Discovery over a batch keeps the accumulator invariant: fresh,
non-id, pairwise-distinct fieldnames. -/
theorem fet_bulk_inv (cf : List (String × JSONField)) :
    ∀ (objs : List JVal) (m : List (String × List PyType))
      (missing : List (String × List PyType)),
      (∀ p ∈ m, fetKeyOk cf p) → (m.map Prod.fst).Nodup →
      find_extra_types_bulk cf m objs = .ok missing →
      (∀ p ∈ missing, fetKeyOk cf p) ∧ (missing.map Prod.fst).Nodup := by
  intro objs
  induction objs with
  | nil =>
    intro m missing h1 h2 he
    simp only [find_extra_types_bulk] at he
    cases he
    exact ⟨h1, h2⟩
  | cons v rest ih =>
    intro m missing h1 h2 he
    cases v with
    | obj fs =>
      simp only [find_extra_types_bulk] at he
      have hinv := fet_inv cf fs m h1 h2
      exact ih _ missing hinv.1 hinv.2 he
    | null => exact absurd he (by simp [find_extra_types_bulk])
    | bool b => exact absurd he (by simp [find_extra_types_bulk])
    | int n => exact absurd he (by simp [find_extra_types_bulk])
    | float q => exact absurd he (by simp [find_extra_types_bulk])
    | str s => exact absurd he (by simp [find_extra_types_bulk])
    | list xs => exact absurd he (by simp [find_extra_types_bulk])
    | pydatetime p => exact absurd he (by simp [find_extra_types_bulk])
    | pydate p => exact absurd he (by simp [find_extra_types_bulk])
    | pytime p => exact absurd he (by simp [find_extra_types_bulk])

theorem bulk_syncG_catExt
    (syncF : JSONType → DB → Context → Except SyncErr Row × DB)
    (bulkF : JSONType → DB → Context → Except SyncErr (List Row) × DB)
    (env : Env) (reg : JSONRegistry)
    (hs : ∀ ty2 db2 ctx2, catExt db2 (syncF ty2 db2 ctx2).2)
    (hb : ∀ ty2 db2 ctx2, catExt db2 (bulkF ty2 db2 ctx2).2)
    (ty : JSONType) (db : DB) (ctx : Context) :
    catExt db (bulk_syncG syncF bulkF env reg ty db ctx).2 := by
  unfold bulk_syncG
  cases hseq : ctx.seq with
  | none => exact catExt_refl db
  | some docs =>
    simp only
    cases hfet : find_extra_types_bulk (fields_by_name db ty) [] docs with
    | error e => exact catExt_refl db
    | ok missing =>
      simp only
      have hinv := fet_bulk_inv (fields_by_name db ty) docs [] missing
        (by simp) (by simp) hfet
      have h1 : catExt db (redefine_with_missing_fields db ty missing) :=
        rwmf_catExt db ty missing hinv.1 hinv.2
      rcases hloop : bulkLoopG syncF bulkF env reg ty
          (redefine_with_missing_fields db ty missing) ctx 0 [] [] docs
        with ⟨res, db2⟩
      have h2 : catExt db db2 := catExt_trans h1
        (catExt_snd_eq
          (bulkLoopG_catExt syncF bulkF env reg hs hb docs ty _ ctx 0 [] []) hloop)
      cases res with
      | error e => exact h2
      | ok pr =>
        rcases pr with ⟨rows, queue⟩
        simp only
        cases queue with
        | nil => exact h2
        | cons q0 qs =>
          simp only
          rcases hbi : bulk_insert_rows ty db2 (q0 :: qs) with ⟨res3, db3⟩
          have h3 : catExt db db3 := catExt_trans h2 (catExt_of_eq (by
            have := bulk_insert_rows_catalog ty db2 (q0 :: qs)
            rw [hbi] at this
            exact this))
          cases res3 with
          | error e => exact h3
          | ok u => exact h3

theorem syncOfEngine_snd (r : Except SyncErr (Row ⊕ List Row) × DB) :
    (syncOfEngine r).2 = r.2 := by
  rcases r with ⟨res, dbr⟩
  rcases res with e | rr
  · rfl
  · rcases rr with row | rows <;> rfl

theorem bulkOfEngine_snd (r : Except SyncErr (Row ⊕ List Row) × DB) :
    (bulkOfEngine r).2 = r.2 := by
  rcases r with ⟨res, dbr⟩
  rcases res with e | rr
  · rfl
  · rcases rr with row | rows <;> rfl

/-- Any `_sync` / `_bulk_sync` call, at any fuel, only ever appends to the
catalog and keeps one entry per (type, fieldname). -/
theorem engineCat : ∀ (fuel : Nat) (env : Env) (reg : JSONRegistry),
    (∀ (ty : JSONType) (db : DB) (ctx : Context),
      catExt db (syncC fuel env reg ty db ctx).2)
    ∧ (∀ (ty : JSONType) (db : DB) (ctx : Context),
      catExt db (bulk_syncC fuel env reg ty db ctx).2) := by
  intro fuel
  induction fuel with
  | zero =>
    intro env reg
    exact ⟨fun ty db ctx => catExt_refl db, fun ty db ctx => catExt_refl db⟩
  | succ n ih =>
    intro env reg
    obtain ⟨ihs, ihb⟩ := ih env reg
    constructor
    · intro ty db ctx
      rw [syncC_succ]
      exact syncG_catExt (syncC n env reg) (bulk_syncC n env reg) env reg ihs ihb
        ty db ctx
    · intro ty db ctx
      rw [bulk_syncC_succ]
      exact bulk_syncG_catExt (syncC n env reg) (bulk_syncC n env reg) env reg ihs ihb
        ty db ctx

/-- One top-level call only extends the catalog. -/
theorem runCall_catExt (fuel : Nat) (env : Env) (reg : JSONRegistry) (db : DB)
    (c : SyncCall) : catExt db (runCall fuel env reg db c) := by
  cases c with
  | single ty obj p =>
    show catExt db (ty.sync fuel env reg db obj p).2
    unfold JSONType.sync
    cases obj with
    | obj fs => exact (engineCat fuel env reg).1 ty db _
    | null => exact catExt_refl db
    | bool b => exact catExt_refl db
    | int n => exact catExt_refl db
    | float q => exact catExt_refl db
    | str s => exact catExt_refl db
    | list xs => exact catExt_refl db
    | pydatetime p2 => exact catExt_refl db
    | pydate p2 => exact catExt_refl db
    | pytime p2 => exact catExt_refl db
  | bulk ty docs p =>
    exact (engineCat fuel env reg).2 ty db _

/-- A whole sequence of calls only extends the catalog. -/
theorem runCalls_catExt (fuel : Nat) (env : Env) (reg : JSONRegistry) :
    ∀ (calls : List SyncCall) (db : DB), catExt db (runCalls fuel env reg calls db) := by
  intro calls
  induction calls with
  | nil =>
    intro db
    exact catExt_refl db
  | cons c rest ih =>
    intro db
    show catExt db (runCalls fuel env reg rest (runCall fuel env reg db c))
    exact catExt_trans (runCall_catExt fuel env reg db c) (ih _)

/-- A sync over a document carrying an unseen non-null field ends with a
storage column for it and a catalog entry making it known. -/
theorem sync_gains_column (fuel : Nat) (env : Env) (reg : JSONRegistry)
    (ty : JSONType) (db : DB) (t0 : Table) (d : Doc) (k : String) (v idv : JVal)
    (hsf : ty.fields.all simpleField = true)
    (hnoid : ∀ f ∈ ty.fields, ¬ f.fieldname = "id" ∧ ¬ f.column_name = "id")
    (hcons : tableConsistent db ty t0)
    (hkv : (k, v) ∈ d) (hvnn : ¬ v = JVal.null) (hkid : ¬ k = "id")
    (hunseen : alookup (fields_by_name db ty) k = none)
    (hnd : (d.map Prod.fst).Nodup)
    (hid : alookup d "id" = some idv) (hidnn : ¬ idv = JVal.null) :
    ∃ tF, ((ty.sync (fuel + 1) env reg db (.obj d) false).2).getTable ty.table_name
        = some tF
      ∧ k ∈ tF.fields
      ∧ (alookup (fields_by_name
          (ty.sync (fuel + 1) env reg db (.obj d) false).2 ty) k).isSome = true := by
  obtain ⟨t1, hcons1, hnext1, hids1, hsup1, hknown1⟩ :=
    extend_consistent db ty t0 d hcons
  obtain ⟨ht1, hf1, hrows1⟩ := hcons1
  set db1 := redefine_with_missing_fields db ty
    (find_extra_types (fields_by_name db ty) [] d) with hdb1
  have hks : (alookup (fields_by_name db1 ty) k).isSome = true :=
    hknown1 k v hkv hvnn hkid
  have hdk : alookup (ty.fields.map fun f => (f.fieldname, f)) k = none := by
    rcases hx : alookup (ty.fields.map fun f => (f.fieldname, f)) k with _ | f
    · exact hx
    · rw [fbn_declared db ty hx] at hunseen
      cases hunseen
  rcases hy : alookup (fields_by_name db1 ty) k with _ | f
  · rw [hy] at hks
    simp at hks
  · have hcol : f = JSONField.ofName k f.type := foldl_fbnStep_of_base_none _ _ hdk hy
    have hkmem : k ∈ t1.fields := by
      rw [hf1]
      apply List.mem_cons_of_mem
      refine List.mem_map.mpr ⟨(k, f), mem_of_alookup_eq_some hy, ?_⟩
      rw [hcol]
      rfl
    obtain ⟨hrowid, hrowkeys⟩ :=
      built_row_facts db1 ty t1 d false ⟨ht1, hf1, hrows1⟩
        (fun k2 v2 hm hnn hk2 => hknown1 k2 v2 hm hnn hk2) hnoid hnd hid hidnn
    set row := simpleRowFields false d
      (row0Of (ty.fields.map fun f => (f.fieldname, f)) t1.fields d) ty.fields
      with hrowdef
    rcases hfd : findRow t1 idv with _ | db_row
    · have hall1 : row.all (fun p => memStr t1.fields p.1) = true :=
        all_keys_memStr hrowkeys
      have H : ty.sync (fuel + 1) env reg db (.obj d) false
          = (.ok row,
             (db1.setTable ty.table_name
                { t1 with rows := t1.rows ++ [normRow t1.fields row] }).pushLog
               (.insertOne ty.table_name row)) := by
        show syncC (fuel + 1) env reg ty db
            { data := some d, seq := none, isPartial := false, index := -1,
              parents := [], root := some d } = _
        rw [syncC_succ]
        unfold syncG
        simp only
        rw [create_row_dictG_simple _ _ env reg ty _ _ d t1 hsf rfl ht1]
        simp only
        rw [← hrowdef]
        rw [update_row_not_found ty _ t1 _ idv ht1 hrowid hfd]
        simp only
        rw [insertRow_ok ty _ t1 _ idv ht1 hall1 hrowid hidnn]
      rw [H]
      refine ⟨{ t1 with rows := t1.rows ++ [normRow t1.fields row] },
        getTable_setTable_self db1 _ _, hkmem, ?_⟩
      have hfbnF : fields_by_name
          ((db1.setTable ty.table_name
            { t1 with rows := t1.rows ++ [normRow t1.fields row] }).pushLog
            (.insertOne ty.table_name row)) ty
          = fields_by_name db1 ty := fbn_catalog_eq ty rfl
      rw [hfbnF, hy]
      rfl
    · obtain ⟨t2, hupd, ht2f, ht2rows, ht2ids⟩ :=
        update_step_found ty db1 t1 row idv db_row ht1
          (by rw [hf1]; exact List.mem_cons_self _ _)
          hrows1 hrowid (fun k2 hk2 => hrowkeys k2 hk2) hfd
      have H : ty.sync (fuel + 1) env reg db (.obj d) false
          = (.ok row,
             (db1.setTable ty.table_name t2).pushLog
               (.updateRec ty.table_name idv)) := by
        show syncC (fuel + 1) env reg ty db
            { data := some d, seq := none, isPartial := false, index := -1,
              parents := [], root := some d } = _
        rw [syncC_succ]
        unfold syncG
        simp only
        rw [create_row_dictG_simple _ _ env reg ty _ _ d t1 hsf rfl ht1]
        simp only
        rw [← hrowdef]
        rw [hupd]
      rw [H]
      refine ⟨t2, getTable_setTable_self db1 _ t2, ?_, ?_⟩
      · rw [ht2f]
        exact hkmem
      · have hfbnF : fields_by_name
            ((db1.setTable ty.table_name t2).pushLog
              (.updateRec ty.table_name idv)) ty
            = fields_by_name db1 ty := fbn_catalog_eq ty rfl
        rw [hfbnF, hy]
        rfl

/-- C9 (counterexample): the claim promises a catalog entry and a column
for every previously unseen field of a synced document, but discovery
skips null values: syncing `{id: 1, newf: null}` against `Person` leaves
the catalog empty and the table without a `newf` column (the row is still
stored, with the document's id). -/
theorem C9_counterexample :
    (Person.sync 9 env0 personReg personDB
        (.obj [("id", .int 1), ("newf", .null)]) false).2.catalog = []
    ∧ (Person.sync 9 env0 personReg personDB
        (.obj [("id", .int 1), ("newf", .null)]) false).2.getTable "person"
      = some { fields := ["id", "name", "age"],
               rows := [[("id", .int 1), ("name", .null), ("age", .null)]],
               nextId := 1 } :=
  ⟨rfl, rfl⟩

/-- C9 (amended): over any sequence of sync/bulkSync calls the catalog
only grows (append-only) and, started unique, keeps exactly one entry per
(Type, fieldname); and a sync whose document carries a previously unseen
field with a NON-NULL value ends with a storage column for that field and
the field known to the catalog.  (A null-valued unseen field, as the
counterexample shows, is skipped entirely.) -/
theorem C9_amended (fuel : Nat) (env : Env) (reg : JSONRegistry) :
    (∀ (calls : List SyncCall) (db : DB),
      ∃ ext, (runCalls fuel env reg calls db).catalog = db.catalog ++ ext)
    ∧ (∀ (calls : List SyncCall) (db : DB),
      (catKeys db).Nodup → (catKeys (runCalls fuel env reg calls db)).Nodup)
    ∧ (∀ (ty : JSONType) (db : DB) (t0 : Table) (d : Doc) (k : String)
        (v idv : JVal),
        ty.fields.all simpleField = true →
        (∀ f ∈ ty.fields, ¬ f.fieldname = "id" ∧ ¬ f.column_name = "id") →
        tableConsistent db ty t0 →
        (k, v) ∈ d → ¬ v = JVal.null → ¬ k = "id" →
        alookup (fields_by_name db ty) k = none →
        (d.map Prod.fst).Nodup →
        alookup d "id" = some idv → ¬ idv = JVal.null →
        ∃ tF, ((ty.sync (fuel + 1) env reg db (.obj d) false).2).getTable
            ty.table_name = some tF
          ∧ k ∈ tF.fields
          ∧ (alookup (fields_by_name
              (ty.sync (fuel + 1) env reg db (.obj d) false).2 ty) k).isSome
              = true) :=
  ⟨fun calls db => (runCalls_catExt fuel env reg calls db).1,
   fun calls db => (runCalls_catExt fuel env reg calls db).2,
   fun ty db t0 d k v idv h1 h2 h3 h4 h5 h6 h7 h8 h9 h10 =>
     sync_gains_column fuel env reg ty db t0 d k v idv h1 h2 h3 h4 h5 h6 h7 h8 h9 h10⟩

/-- Document carrying the unseen non-null field `hobby`. -/
def c9doc : Doc := [("id", .int 1), ("hobby", .str "chess")]

/-- One single-document call over it. -/
def c9calls : List SyncCall := [.single Person (.obj c9doc) false]

/-- Witness for C9: the amended claim on `Person` over fresh storage with
the document `{id: 1, hobby: "chess"}`. -/
theorem C9_witness :
    (∃ ext, (runCalls 2 env0 personReg c9calls personDB).catalog
        = personDB.catalog ++ ext)
    ∧ (catKeys (runCalls 2 env0 personReg c9calls personDB)).Nodup
    ∧ ∃ tF, ((Person.sync 2 env0 personReg personDB (.obj c9doc) false).2).getTable
          Person.table_name = some tF
        ∧ "hobby" ∈ tF.fields
        ∧ (alookup (fields_by_name
            (Person.sync 2 env0 personReg personDB (.obj c9doc) false).2 Person)
            "hobby").isSome = true :=
  ⟨(C9_amended 2 env0 personReg).1 c9calls personDB,
   (C9_amended 2 env0 personReg).2.1 c9calls personDB (by decide),
   (C9_amended 1 env0 personReg).2.2 Person personDB
     { fields := ["id", "name", "age"], rows := [], nextId := 1 }
     c9doc "hobby" (.str "chess") (.int 1)
     (by decide) (by decide) ⟨rfl, by decide, by decide⟩
     (by decide) (by decide) (by decide) rfl (by decide) rfl (by decide)⟩
